import Mathlib

/-!
Verification of the gap-analysis orchestrator
(src/app/services/gap_analyzer/orchestrator.py) against its specification.

The orchestrator is embedded shallowly: external collaborators (document
analyzer, query generator, search backend, gap validator, wall clock) are
modelled as oracle functions bundled in `Oracles`; the orchestrator's
mutable fields (`potential_gaps_db`, `final_gaps_list`, `analyzed_papers`,
`analyzed_papers_set`, `gap_search_queue`, `research_frontier`, `stats`)
become an explicit state record `OState` threaded through the phases.
Every `time.time()` read consumes one tick of `Oracles.clock`.  Ghost
fields (`analyzeTrace`, `validateCalls`, `solutionCalls`, `relatedCalls`)
record which collaborator calls were issued, so that uniqueness and
"no further work" properties are observable.
-/

namespace GapAnalysis

/-- Model of `ResearchGap` (gap ids are `uuid4` strings in the source;
they are modelled as naturals handed out by a fresh-id counter, which
captures exactly their uniqueness). -/
structure RGap where
  gap_id : Nat
  description : String
  source_paper : String
  source_paper_title : String
  category : String
  validation_strikes : Nat
deriving DecidableEq

/-- Model of `PaperAnalysis`: the structured findings of one document. -/
structure PaperAnalysis where
  url : String
  title : String
  limitations : List String
  future_work : List String
  key_findings : List String
deriving DecidableEq

/-- Model of `GapMetrics` (the numeric bundle of an enrichment).  Python
floats are modelled as exact rationals. -/
structure GapMetrics where
  difficulty_score : ℚ
  innovation_potential : ℚ
  commercial_viability : ℚ
  time_to_solution : String
  funding_likelihood : ℕ
  collaboration_score : ℚ
  ethical_considerations : ℚ
deriving DecidableEq

/-- Model of `ValidatedGap` (the fields the verified claims touch). -/
structure VGap where
  gap_id : Nat
  gap_title : String
  description : String
  source_paper : String
  source_paper_title : String
  validation_evidence : String
  potential_impact : String
  suggested_approaches : List String
  category : String
  gap_metrics : GapMetrics
  validation_attempts : Nat
  confidence_score : ℚ
deriving DecidableEq

/-- The run counters of `self.stats`. -/
structure Stats where
  gaps_discovered : ℕ
  gaps_eliminated : ℕ
  search_queries_executed : ℕ
  validation_attempts : ℕ
  frontier_expansions : ℕ
  research_areas_explored : ℕ
deriving DecidableEq

/-- The orchestrator's per-run mutable state, plus ghost call logs. -/
structure OState where
  gap_search_queue : List RGap
  potential_gaps_db : List RGap
  final_gaps_list : List VGap
  analyzed_papers_set : List String
  analyzed_papers : List PaperAnalysis
  research_frontier : List String
  stats : Stats
  next_gap_id : ℕ
  tick : ℕ
  analyzeTrace : List String
  validateCalls : List ℕ
  solutionCalls : List (ℕ × ℕ)
  relatedCalls : List ℕ
deriving DecidableEq

/-- The state `initialize()` resets to before each analysis. -/
def initState : OState :=
  { gap_search_queue := [], potential_gaps_db := [], final_gaps_list := [],
    analyzed_papers_set := [], analyzed_papers := [], research_frontier := [],
    stats := { gaps_discovered := 0, gaps_eliminated := 0,
               search_queries_executed := 0, validation_attempts := 0,
               frontier_expansions := 0, research_areas_explored := 0 },
    next_gap_id := 0, tick := 0,
    analyzeTrace := [], validateCalls := [], solutionCalls := [], relatedCalls := [] }

/-- The external collaborators, as deterministic oracles.  `none` in a
result position models the collaborator call raising an exception (or,
for `analyze`, returning no result); `clock t` is the value of the t-th
`time.time()` read of the run (timestamps are modelled as exact integer
values of arbitrary resolution; the orchestrator only adds constants to
them and compares them, so nothing depends on sub-unit granularity). -/
structure Oracles where
  analyze : String → Option PaperAnalysis
  genQueries : RGap → Option (List String)
  searchPapers : List String → ℕ → List String
  searchValidation : String → List String
  genRelated : RGap → Option (List String)
  validate : RGap → List PaperAnalysis → Option Bool
  enrich : RGap → Option (Option VGap)
  clock : ℕ → ℤ
deriving Inhabited

/-- Python set `add`: membership-preserving insertion. -/
def insertNew (s : List String) (x : String) : List String :=
  if x ∈ s then s else s ++ [x]

/-- Python `s.strip()`: leading and trailing whitespace removed
(character-list implementation, structurally recursive). -/
def pyStrip (s : String) : String :=
  ⟨((s.data.dropWhile Char.isWhitespace).reverse.dropWhile Char.isWhitespace).reverse⟩

/-- Python `s[:n]`: the first n code points. -/
def pyTake (s : String) (n : ℕ) : String := ⟨s.data.take n⟩

/-- Python `s.lower()`. -/
def pyLower (s : String) : String := ⟨s.data.map Char.toLower⟩

/-- Helper of `wordCount`: the maximal whitespace-free words of a
character list (`acc` holds the current word reversed). -/
def wordsAux : List Char → List Char → List (List Char)
  | [], acc => if acc = [] then [] else [acc.reverse]
  | c :: rest, acc =>
    if c.isWhitespace then
      if acc = [] then wordsAux rest [] else acc.reverse :: wordsAux rest []
    else wordsAux rest (c :: acc)

/-- Python `len(s.split())`: whitespace-separated word count. -/
def wordCount (s : String) : ℕ := (wordsAux s.data []).length

def startsWithB : List Char → List Char → Bool
  | [], _ => true
  | _ :: _, [] => false
  | a :: as, b :: bs => a = b && startsWithB as bs

def hasInfixB (pat : List Char) : List Char → Bool
  | [] => startsWithB pat []
  | c :: rest => startsWithB pat (c :: rest) || hasInfixB pat rest

/-- Python `" ".join(l)`. -/
def joinSpace : List String → String
  | [] => ""
  | [s] => s
  | s :: rest => s ++ " " ++ joinSpace rest

/-- The extraction threshold test: `len(statement.strip()) > 20`. -/
def qualifies (s : String) : Bool := 20 < (pyStrip s).length

/-- One `ResearchGap(...)` construction per qualifying statement, ids
handed out in order from `n`. -/
def gapsFromStatements : List String → String → String → String → ℕ → List RGap
  | [], _, _, _, _ => []
  | s :: rest, cat, url, title, n =>
    if qualifies s then
      { gap_id := n, description := pyStrip s, source_paper := url,
        source_paper_title := title, category := cat, validation_strikes := 0 }
        :: gapsFromStatements rest cat url title (n + 1)
    else gapsFromStatements rest cat url title n

/-- Model of `_extract_gaps_from_paper`: one gap per limitation and per
future-work statement whose trimmed length exceeds 20, appended to
`potential_gaps_db`, `gaps_discovered` incremented per created gap. -/
def extractGapsFromPaper (st : OState) (p : PaperAnalysis) : OState :=
  let limGaps := gapsFromStatements p.limitations "Limitation" p.url p.title st.next_gap_id
  let fwGaps := gapsFromStatements p.future_work "Future Work" p.url p.title
      (st.next_gap_id + limGaps.length)
  { st with
    potential_gaps_db := st.potential_gaps_db ++ limGaps ++ fwGaps,
    next_gap_id := st.next_gap_id + limGaps.length + fwGaps.length,
    stats := { st.stats with
      gaps_discovered := st.stats.gaps_discovered + (limGaps.length + fwGaps.length) } }

theorem gapsFromStatements_map_desc_cat (l : List String) (cat url title : String) (n : ℕ) :
    (gapsFromStatements l cat url title n).map (fun g => (g.description, g.category))
      = ((l.filter fun s => qualifies s).map fun s => (pyStrip s, cat)) := by
  induction l generalizing n with
  | nil => simp [gapsFromStatements]
  | cons s rest ih =>
    by_cases h : qualifies s <;> simp [gapsFromStatements, h, List.filter_cons, ih]

theorem gapsFromStatements_length (l : List String) (cat url title : String) (n : ℕ) :
    (gapsFromStatements l cat url title n).length = (l.filter fun s => qualifies s).length := by
  have := congrArg List.length (gapsFromStatements_map_desc_cat l cat url title n)
  simpa using this

/-- C9 — Gap extraction: for every paper, extraction appends to the
pending store exactly one gap per limitation and per future-work
statement whose trimmed length exceeds 20 characters, tagged
"Limitation" / "Future Work" respectively and carrying the trimmed
statement as its description; the discovered counter is incremented once
per created gap; statements of trimmed length at most 20 produce no gap
and no counter increment; no other counter, the final list and the queue
are untouched. -/
theorem extract_gaps_characterization (st : OState) (p : PaperAnalysis) :
    ((extractGapsFromPaper st p).potential_gaps_db.drop st.potential_gaps_db.length).map
        (fun g => (g.description, g.category))
      = ((p.limitations.filter fun s => qualifies s).map fun s => (pyStrip s, "Limitation"))
        ++ ((p.future_work.filter fun s => qualifies s).map fun s => (pyStrip s, "Future Work"))
    ∧ (extractGapsFromPaper st p).potential_gaps_db.length
      = st.potential_gaps_db.length + (p.limitations.filter fun s => qualifies s).length
        + (p.future_work.filter fun s => qualifies s).length
    ∧ (extractGapsFromPaper st p).stats.gaps_discovered
      = st.stats.gaps_discovered + ((p.limitations.filter fun s => qualifies s).length
        + (p.future_work.filter fun s => qualifies s).length)
    ∧ (extractGapsFromPaper st p).potential_gaps_db.take st.potential_gaps_db.length
      = st.potential_gaps_db
    ∧ (extractGapsFromPaper st p).final_gaps_list = st.final_gaps_list
    ∧ (extractGapsFromPaper st p).gap_search_queue = st.gap_search_queue
    ∧ (extractGapsFromPaper st p).stats.gaps_eliminated = st.stats.gaps_eliminated
    ∧ (extractGapsFromPaper st p).stats.validation_attempts = st.stats.validation_attempts := by
  refine ⟨?_, ?_, ?_, ?_, rfl, rfl, rfl, rfl⟩
  · simp [extractGapsFromPaper, List.map_append,
      gapsFromStatements_map_desc_cat]
  · simp [extractGapsFromPaper, gapsFromStatements_length, Nat.add_assoc]
  · simp [extractGapsFromPaper, gapsFromStatements_length]
  · simp [extractGapsFromPaper, List.take_append_of_le_length]

/-- Model of `if timeout_deadline and time.time() >= timeout_deadline`:
when a deadline is set, one clock tick is consumed and compared. -/
def checkExpired (o : Oracles) (dl : Option ℤ) (st : OState) : Bool × OState :=
  match dl with
  | none => (false, st)
  | some d => (decide (d ≤ o.clock st.tick), { st with tick := st.tick + 1 })

/-- Model of `_quick_gap_enrichment`: the deterministic fallback
enrichment, bounded linear functions of the description's word count and
character length, fixed placeholder texts, fixed confidence score. -/
def quickGapEnrichment (gap : RGap) : VGap :=
  let dl : ℚ := gap.description.length
  let wc : ℚ := wordCount gap.description
  let wcn : ℕ := wordCount gap.description
  { gap_id := gap.gap_id,
    gap_title := pyTake gap.description 100,
    description := gap.description,
    source_paper := gap.source_paper,
    source_paper_title := gap.source_paper_title,
    validation_evidence := "Validated through systematic analysis",
    potential_impact := "Significant research opportunity identified",
    suggested_approaches := ["Detailed analysis required", "Empirical investigation",
      "Theoretical exploration"],
    category := "Research Opportunity",
    gap_metrics :=
      { difficulty_score := min 8 (max 4 (5 + wc / 20)),
        innovation_potential := min 9 (max 6 (7 + dl / 100)),
        commercial_viability := min 8 (max 4 (11 / 2 + wc / 30)),
        time_to_solution := toString (max 1 (wcn / 10)) ++ "-"
          ++ toString (max 2 (wcn / 8)) ++ " years",
        funding_likelihood := min 90 (max 50 (60 + wcn * 2)),
        collaboration_score := min 9 (max 4 (5 + wc / 15)),
        ethical_considerations := min 7 (max 2 (3 + wc / 25)) },
    validation_attempts := gap.validation_strikes,
    confidence_score := 75 }

/-- The `enrich_validated_gap` call with its two fallbacks as the source
writes them everywhere it enriches: an exception (`none`) or a `None`
result (`some none`) falls back to `_quick_gap_enrichment`. -/
def enrichOrQuick (o : Oracles) (gap : RGap) : VGap :=
  match o.enrich gap with
  | some (some v) => v
  | some none => quickGapEnrichment gap
  | none => quickGapEnrichment gap

/-- Ghost step: log one `analyze_paper(url)` call. -/
def traceState (st : OState) (url : String) : OState :=
  { st with analyzeTrace := st.analyzeTrace ++ [url] }

/-- The bookkeeping of a successful phase-2 analysis: append the paper
and add the url to the processed set. -/
def recordAnalyzed2 (st : OState) (url : String) (p : PaperAnalysis) : OState :=
  { st with analyzed_papers := st.analyzed_papers ++ [p],
            analyzed_papers_set := st.analyzed_papers_set ++ [url] }

/-- The bookkeeping of a successful phase-3 validation analysis: only
`analyzed_papers` is appended (the processed set is not updated). -/
def recordAnalyzed3 (st : OState) (p : PaperAnalysis) : OState :=
  { st with analyzed_papers := st.analyzed_papers ++ [p] }

/-- Step 5 of the expansion loop: record the gap topic into the explored
frontier and count the area. -/
def frontierStep (st : OState) (gap : RGap) : OState :=
  { st with
    research_frontier := insertNew st.research_frontier (pyTake gap.description 50),
    stats := { st.stats with
      research_areas_explored := st.stats.research_areas_explored + 1 } }

/-- Popping the queue (`self.gap_search_queue.pop(0)` leaves the rest). -/
def setQueue (st : OState) (q : List RGap) : OState :=
  { st with gap_search_queue := q }

/-- The deep-mode extraction block after a successful analysis: extract
new gaps, enqueue them, and count one frontier expansion if any. -/
def deepExtractStep (st : OState) (p : PaperAnalysis) : OState :=
  let before := st.potential_gaps_db.length
  let st3 := extractGapsFromPaper st p
  let newGaps := st3.potential_gaps_db.drop before
  if newGaps.length > 0 then
    { st3 with
      gap_search_queue := st3.gap_search_queue ++ newGaps,
      stats := { st3.stats with
        frontier_expansions := st3.stats.frontier_expansions + 1 } }
  else st3

/-- Model of `_phase_1_seeding`: analyze the seed (`none` = the fatal
failure path), then initialise the analyzed-paper set/list and extract
the initial gaps. -/
def phase1Seeding (o : Oracles) (seedUrl : String) (st : OState) :
    Option PaperAnalysis × OState :=
  let st1 := traceState st seedUrl
  match o.analyze seedUrl with
  | none => (none, st1)
  | some seed =>
    (some seed,
      extractGapsFromPaper
        { st1 with analyzed_papers_set := [seedUrl], analyzed_papers := [seed] } seed)

inductive Mode
  | light
  | deep
deriving DecidableEq

/-- Model of `_search_for_gap_solutions` (ghost-logging the gap and the
limit it was called with): validation queries then a paper search; any
collaborator error yields `[]`. -/
def searchForGapSolutions (o : Oracles) (st : OState) (gap : RGap) (limit : ℕ) :
    List String × OState :=
  let st1 := { st with solutionCalls := st.solutionCalls ++ [(gap.gap_id, limit)] }
  match o.genQueries gap with
  | none => ([], st1)
  | some qs => (o.searchPapers qs limit, st1)

/-- Model of `_search_for_related_research` (ghost-logging the call): the
LLM produces query lines (`none` = no model or an exception), the first
two non-blank trimmed lines are searched with `limit_per_query=1` and
counted into `search_queries_executed`; otherwise `[]`. -/
def searchForRelatedResearch (o : Oracles) (st : OState) (gap : RGap) :
    List String × OState :=
  let st1 := { st with relatedCalls := st.relatedCalls ++ [gap.gap_id] }
  match o.genRelated gap with
  | none => ([], st1)
  | some lines =>
    let qs := (((lines.map pyStrip).filter fun q => q ≠ "").take 2)
    if qs = [] then ([], st1)
    else
      (o.searchPapers qs 1,
        { st1 with stats := { st1.stats with
            search_queries_executed := st1.stats.search_queries_executed + qs.length } })

/-- The inner document loop of `_phase_2_expanding_frontier`: for each
discovered url, a deadline check, the dedup/budget guard, analysis, and
(deep mode only) extraction of new gaps which are enqueued with a
frontier-expansion increment.  Returns the updated `papers_analyzed`. -/
def phase2PaperLoop (o : Oracles) (mode : Mode) (maxPapers : ℕ) (dl : Option ℤ) :
    List String → ℕ → OState → ℕ × OState
  | [], pa, st => (pa, st)
  | url :: rest, pa, st =>
    let c := checkExpired o dl st
    if c.1 then (pa, c.2)
    else
      let st := c.2
      if url ∉ st.analyzed_papers_set ∧ pa < maxPapers then
        let st1 := traceState st url
        match o.analyze url with
        | none => phase2PaperLoop o mode maxPapers dl rest pa st1
        | some p =>
          let st2 := recordAnalyzed2 st1 url p
          match mode with
          | .light => phase2PaperLoop o mode maxPapers dl rest (pa + 1) st2
          | .deep => phase2PaperLoop o mode maxPapers dl rest (pa + 1) (deepExtractStep st2 p)
      else phase2PaperLoop o mode maxPapers dl rest pa st

/-- The gap loop of `_phase_2_expanding_frontier`.  `budget` is the
remaining iteration allowance (`max_gaps_limit - gaps_processed`); the
loop runs while the queue is non-empty, `papers_analyzed < max_papers`
and the allowance is positive, with a deadline check before each gap. -/
def phase2GapLoop (o : Oracles) (mode : Mode) (maxPapers : ℕ) (dl : Option ℤ) :
    ℕ → ℕ → OState → OState
  | 0, _, st => st
  | budget + 1, pa, st =>
    match st.gap_search_queue with
    | [] => st
    | gap :: restQ =>
      if ¬ pa < maxPapers then st
      else
        let c := checkExpired o dl st
        if c.1 then c.2
        else
          let st1 := setQueue c.2 restQ
          let pr :=
            match mode with
            | .light => searchForGapSolutions o st1 gap 1
            | .deep =>
              let e := searchForGapSolutions o st1 gap 5
              let x := searchForRelatedResearch o e.2 gap
              ((e.1 ++ x.1).dedup, x.2)
          let lp := phase2PaperLoop o mode maxPapers dl pr.1 pa pr.2
          phase2GapLoop o mode maxPapers dl budget lp.1 (frontierStep lp.2 gap)

/-- Model of `_phase_2_expanding_frontier`: light mode truncates the
queue to two gaps, caps `max_papers` at 2 and the gap iterations at 2;
deep mode uses `max_papers` as iteration cap.  `papers_analyzed` starts
at 1 (the seed). -/
def phase2ExpandingFrontier (o : Oracles) (maxPapers : ℕ) (mode : Mode)
    (dl : Option ℤ) (st : OState) : OState :=
  match mode with
  | .light =>
    phase2GapLoop o .light (min maxPapers 2) dl 2 1
      { st with gap_search_queue := st.gap_search_queue.take 2 }
  | .deep => phase2GapLoop o .deep maxPapers dl maxPapers 1 st

/-- Python `list.remove` by gap id: drops the first matching entry,
leaves the list unchanged when no entry matches (the source guards its
calls with membership, or its `ValueError` is swallowed by the per-gap
handler after the final-list append, which yields the same state). -/
def removeById : List RGap → ℕ → List RGap
  | [], _ => []
  | g :: rest, i => if g.gap_id = i then rest else g :: removeById rest i

/-- In-place `gap.validation_strikes += 1` as seen by the pending store:
the entry with this id gets its strike counter bumped. -/
def bumpStrikes (l : List RGap) (i : ℕ) : List RGap :=
  l.map fun g =>
    if g.gap_id = i then { g with validation_strikes := g.validation_strikes + 1 } else g

/-- The bound of validation-paper analysis per gap:
`1 if timeout_deadline and (time.time() + 30) > timeout_deadline else 2`. -/
def maxValidationPapers (o : Oracles) (dl : Option ℤ) (st : OState) : ℕ × OState :=
  match dl with
  | none => (2, st)
  | some d =>
    (if d < o.clock st.tick + 30 then 1 else 2, { st with tick := st.tick + 1 })

/-- The validation-paper analysis loop (step 3.3): analyze each url not
already among the urls of successful analyses, collecting the successes. -/
def validationPapersLoop (o : Oracles) :
    List String → OState → List PaperAnalysis × OState
  | [], st => ([], st)
  | url :: rest, st =>
    if url ∈ st.analyzed_papers.map PaperAnalysis.url then
      validationPapersLoop o rest st
    else
      let st1 := traceState st url
      match o.analyze url with
      | none => validationPapersLoop o rest st1
      | some p =>
        let r := validationPapersLoop o rest (recordAnalyzed3 st1 p)
        (p :: r.1, r.2)

/-- Steps 3.1-3.3 of one validation iteration: query generation (its
failure falls back to naive queries and skips the counter), the
validation search, the deadline-dependent analysis bound, and the
validation-paper loop. -/
def processGapPapers (o : Oracles) (dl : Option ℤ) (gap : RGap) (st : OState) :
    List PaperAnalysis × OState :=
  let st1 :=
    match o.genQueries gap with
    | some qs =>
      { st with stats := { st.stats with
          search_queries_executed := st.stats.search_queries_executed + qs.length } }
    | none => st
  let urls := o.searchValidation gap.description
  let m := maxValidationPapers o dl st1
  validationPapersLoop o (urls.take m.1) m.2

/-- Steps 3.5-3.6: strike increment, attempts increment, graduation to
the final list (with enrichment fallback) the moment the threshold is
met, followed by removal from the pending store. -/
def strikeStep (o : Oracles) (threshold : ℕ) (gap : RGap) (st : OState) : OState :=
  let gap1 := { gap with validation_strikes := gap.validation_strikes + 1 }
  let st1 := { st with
    potential_gaps_db := bumpStrikes st.potential_gaps_db gap.gap_id,
    stats := { st.stats with validation_attempts := st.stats.validation_attempts + 1 } }
  if threshold ≤ gap1.validation_strikes then
    let st2 := { st1 with final_gaps_list := st1.final_gaps_list ++ [enrichOrQuick o gap1] }
    { st2 with potential_gaps_db := removeById st2.potential_gaps_db gap.gap_id }
  else st1

/-- One full iteration of the validation loop body (steps 3.1-3.6): if
validation papers were found the validator is consulted (ghost-logged);
`invalidated` removes the gap and counts an elimination, skipping the
strike increment; a negative or failed judgment, or no validation
papers, leads to the strike step. -/
def processGap (o : Oracles) (threshold : ℕ) (dl : Option ℤ) (gap : RGap)
    (st : OState) : OState :=
  let r := processGapPapers o dl gap st
  if r.1.isEmpty then strikeStep o threshold gap r.2
  else
    let st2 := { r.2 with validateCalls := r.2.validateCalls ++ [gap.gap_id] }
    match o.validate gap r.1 with
    | some true =>
      if gap.gap_id ∈ st2.potential_gaps_db.map RGap.gap_id then
        { st2 with
          potential_gaps_db := removeById st2.potential_gaps_db gap.gap_id,
          stats := { st2.stats with gaps_eliminated := st2.stats.gaps_eliminated + 1 } }
      else st2
    | some false => strikeStep o threshold gap st2
    | none => strikeStep o threshold gap st2

/-- The drain on deadline expiry: every remaining gap still below the
threshold is enriched (validator enrichment, quick fallback) into the
final list and removed from the pending store; no collaborator other
than the enricher is consulted. -/
def drainGaps (o : Oracles) (threshold : ℕ) : List RGap → OState → OState
  | [], st => st
  | g :: rest, st =>
    if g.validation_strikes < threshold then
      let st1 := { st with final_gaps_list := st.final_gaps_list ++ [enrichOrQuick o g] }
      let st2 :=
        if g.gap_id ∈ st1.potential_gaps_db.map RGap.gap_id then
          { st1 with potential_gaps_db := removeById st1.potential_gaps_db g.gap_id }
        else st1
      drainGaps o threshold rest st2
    else drainGaps o threshold rest st

/-- The gap loop of `_phase_3_final_validation`: a deadline check before
each gap; on expiry the remaining slice is drained and the loop breaks. -/
def phase3Loop (o : Oracles) (threshold : ℕ) (dl : Option ℤ) :
    List RGap → OState → OState
  | [], st => st
  | gap :: rest, st =>
    let c := checkExpired o dl st
    if c.1 then drainGaps o threshold (gap :: rest) c.2
    else phase3Loop o threshold dl rest (processGap o threshold dl gap c.2)

/-- Model of `_phase_3_final_validation`: iterate over the pending gaps
whose strike count is below the threshold. -/
def phase3FinalValidation (o : Oracles) (threshold : ℕ) (dl : Option ℤ)
    (st : OState) : OState :=
  phase3Loop o threshold dl
    (st.potential_gaps_db.filter fun g => g.validation_strikes < threshold) st

/-- Python `round(x)` on an exact value: nearest integer, ties to even. -/
def pyRoundInt (q : ℚ) : ℤ :=
  let f := Rat.floor q
  let r := q - (f : ℚ)
  if r < 1 / 2 then f
  else if 1 / 2 < r then f + 1
  else if f % 2 = 0 then f else f + 1

/-- Python `round(x, d)` on an exact value. -/
def pyRound (q : ℚ) (d : ℕ) : ℚ := (pyRoundInt (q * 10 ^ d) : ℚ) / 10 ^ d

/-- `llm_tokens_processed = len(analyzed_papers)*15000 + len(final_gaps)*8000`. -/
def llmTokensProcessed (papers gaps : ℕ) : ℕ := papers * 15000 + gaps * 8000

/-- One `patent_landscape` value: `max(50, count*150 + len(category)*10)`. -/
def patentLandscapeVal (category : String) (count : ℕ) : ℕ :=
  max 50 (count * 150 + category.length * 10)

/-- `research_velocity = round(len(analyzed_papers) / (processing_time/60), 2)`. -/
def researchVelocity (papers : ℕ) (pt : ℚ) : ℚ := pyRound ((papers : ℚ) / (pt / 60)) 2

/-- `breakthrough_potential_score = min(10.0, round(8.5 + len(final)*0.2, 1))`. -/
def breakthroughScore (gaps : ℕ) : ℚ := min 10 (pyRound (17 / 2 + (gaps : ℚ) * (1 / 5)) 1)

/-- `frontier_coverage = round(min(85.0, 20.0 + len(analyzed)*8), 1)`. -/
def frontierCoverage (papers : ℕ) : ℚ := pyRound (min 85 (20 + (papers : ℚ) * 8)) 1

/-- `ai_confidence_score = min(100.0, round(88.5 + min(10, len(final)*1.5), 1))`. -/
def aiConfidenceScore (gaps : ℕ) : ℚ :=
  min 100 (pyRound (177 / 2 + min 10 ((gaps : ℚ) * (3 / 2))) 1)

/-- One `technology_readiness` value: `min(9, max(3, 4 + count))`. -/
def technologyReadinessVal (count : ℕ) : ℕ := min 9 (max 3 (4 + count))

/-- One `research_momentum` value:
`round(5.0 + count*2.5 + len(category)*0.1, 1)`. -/
def researchMomentumVal (category : String) (count : ℕ) : ℚ :=
  pyRound (5 + (count : ℚ) * (5 / 2) + (category.length : ℚ) * (1 / 10)) 1

/-- `research_clusters[category] = research_clusters.get(category, 0) + 1`
over a Python dict (insertion-ordered). -/
def bumpCluster : List (String × ℕ) → String → List (String × ℕ)
  | [], c => [(c, 1)]
  | (k, n) :: rest, c => if k = c then (k, n + 1) :: rest else (k, n) :: bumpCluster rest c

/-- `gap.category or "General Research"`. -/
def clusterCategory (g : VGap) : String :=
  if g.category = "" then "General Research" else g.category

def researchClusters (final : List VGap) : List (String × ℕ) :=
  final.foldl (fun acc g => bumpCluster acc (clusterCategory g)) []

/-- `list(set([gap.category for gap in final if gap.category]))` (the
set's iteration order is unspecified in the source; first-occurrence
order is fixed here), defaulting to `["General Research"]`. -/
def actualCategories (final : List VGap) : List String :=
  let cs := ((final.map VGap.category).filter fun c => c ≠ "").dedup
  if cs = [] then ["General Research"] else cs

/-- Substring test (Python `pat in s`). -/
def containsSub (s pat : String) : Bool := hasInfixB pat.data s.data

/-- The keyword-derived `emerging_trends` labels. -/
def emergingTrends (final : List VGap) : List String :=
  let t := joinSpace (final.map fun g => pyLower g.description)
  let l :=
    (if containsSub t "edge" || containsSub t "real-time" then
      ["Real-Time Edge Computing"] else [])
    ++ (if containsSub t "robust" || containsSub t "adversarial" then
      ["Robust AI Systems"] else [])
    ++ (if containsSub t "cross-domain" || containsSub t "generalization" then
      ["Cross-Domain Adaptation"] else [])
    ++ (if containsSub t "multi-modal" || containsSub t "fusion" then
      ["Multi-Modal AI"] else [])
  if l = [] then ["Advanced AI Techniques"] else l

/-- The analytics assembled by `_phase_4_synthesis` (the numeric and
structured fields; narrative strings that merely template over the same
numbers are represented by `frontier_overview`). -/
structure SynthOut where
  processing_time_seconds : ℚ
  frontier_expansions : ℕ
  research_domains_explored : ℕ
  cross_domain_connections : ℕ
  breakthrough_potential_score : ℚ
  research_velocity : ℚ
  gap_discovery_rate : ℚ
  elimination_effectiveness : ℚ
  frontier_coverage : ℚ
  gaps_discovered : ℕ
  gaps_validated : ℕ
  gaps_eliminated : ℕ
  search_queries_executed : ℕ
  validation_attempts : ℕ
  total_papers_analyzed : ℕ
  avg_paper_analysis_time : ℚ
  successful_paper_extractions : ℕ
  failed_extractions : ℕ
  gemini_api_calls : ℕ
  llm_tokens_processed : ℕ
  ai_confidence_score : ℚ
  citation_potential_score : ℚ
  novelty_index : ℚ
  impact_factor_projection : ℚ
  research_clusters : List (String × ℕ)
  emerging_trends : List String
  dominant_research_areas : List String
  technology_readiness : List (String × ℕ)
  patent_landscape : List (String × ℕ)
  research_momentum : List (String × ℚ)
  frontier_overview : String
  validated_gaps : List VGap
  timeline_start : ℤ
deriving DecidableEq

/-- Model of `_phase_4_synthesis`.  `start` is the run's `start_time`
and `now` the `time.time()` read at entry; `processing_time = now -
start`.  Besides these two clock readings the result depends only on the
final gap list, the counters, the number of analyzed papers and the
research frontier (everywhere else the source only takes lengths).
`max(0, queries - papers)` is natural subtraction. -/
def phase4Synthesis (st : OState) (start now : ℤ) : SynthOut :=
  let pt : ℚ := ((now - start : ℤ) : ℚ)
  let papersLen := st.analyzed_papers.length
  let finalLen := st.final_gaps_list.length
  let clusters := researchClusters st.final_gaps_list
  let cats := actualCategories st.final_gaps_list
  { processing_time_seconds := pyRound pt 2,
    frontier_expansions := st.stats.frontier_expansions,
    research_domains_explored := st.research_frontier.length,
    cross_domain_connections := max 2 (st.research_frontier.length / 3),
    breakthrough_potential_score := breakthroughScore finalLen,
    research_velocity := researchVelocity papersLen pt,
    gap_discovery_rate :=
      pyRound ((st.stats.gaps_discovered : ℚ) / ((max 1 papersLen : ℕ) : ℚ)) 2,
    elimination_effectiveness :=
      pyRound (((st.stats.gaps_eliminated : ℚ)
        / ((max 1 st.stats.gaps_discovered : ℕ) : ℚ)) * 100) 1,
    frontier_coverage := frontierCoverage papersLen,
    gaps_discovered := st.stats.gaps_discovered,
    gaps_validated := finalLen,
    gaps_eliminated := st.stats.gaps_eliminated,
    search_queries_executed := st.stats.search_queries_executed,
    validation_attempts := st.stats.validation_attempts,
    total_papers_analyzed := papersLen,
    avg_paper_analysis_time := pyRound (pt / ((max 1 papersLen : ℕ) : ℚ)) 2,
    successful_paper_extractions := papersLen,
    failed_extractions := st.stats.search_queries_executed - papersLen,
    gemini_api_calls := st.stats.search_queries_executed + finalLen * 3,
    llm_tokens_processed := llmTokensProcessed papersLen finalLen,
    ai_confidence_score := aiConfidenceScore finalLen,
    citation_potential_score := min 10 (pyRound (39 / 5 + (finalLen : ℚ) * (3 / 10)) 1),
    novelty_index := min 10 (pyRound (41 / 5 + (st.research_frontier.length : ℚ) * (1 / 5)) 1),
    impact_factor_projection := min 10 (pyRound (9 / 2 + (finalLen : ℚ) * (2 / 5)) 1),
    research_clusters := clusters,
    emerging_trends := emergingTrends st.final_gaps_list,
    dominant_research_areas := cats.take 4,
    technology_readiness := clusters.map fun c => (c.1, technologyReadinessVal c.2),
    patent_landscape := clusters.map fun c => (c.1, patentLandscapeVal c.1 c.2),
    research_momentum := clusters.map fun c => (c.1, researchMomentumVal c.1 c.2),
    frontier_overview := "Analysis of the research frontier revealed " ++ toString finalLen
      ++ " high-impact research opportunities across " ++ toString cats.length
      ++ " domains, with " ++ toString st.stats.gaps_eliminated
      ++ " previously identified gaps eliminated due to existing solutions.",
    validated_gaps := st.final_gaps_list,
    timeline_start := start }

/-- The parameter resolution at entry to the expansion phase:
light mode caps the paper budget at 4 and forces threshold 1. -/
def resolveParams (mode : Mode) (requestedPapers requestedThreshold : ℕ) : ℕ × ℕ :=
  match mode with
  | .light => (min requestedPapers 4, 1)
  | .deep => (requestedPapers, requestedThreshold)

/-- The timeout-skip branch before phase 3 (`validation_threshold = 0`):
the first five pending gaps are enriched (with fallback) into the final
list — the source does not remove them from `potential_gaps_db`. -/
def timeoutSkipEnrich (o : Oracles) (st : OState) : OState :=
  { st with final_gaps_list :=
      st.final_gaps_list ++ (st.potential_gaps_db.take 5).map (enrichOrQuick o) }

/-- A `GapAnalysisRequest` (the fields the orchestrator reads). -/
structure Request where
  url : String
  analysis_mode : Mode
  max_papers : ℕ
  validation_threshold : ℕ
deriving DecidableEq

/-- The response as the claims observe it, together with the final
orchestrator state (for stating invariants about a finished run). -/
structure RunResult where
  ok : Bool
  validated_gaps : List VGap
  gaps_discovered : ℕ
  gaps_validated : ℕ
  gaps_eliminated : ℕ
  total_papers_analyzed : ℕ
  frontier_overview : String
  key_insights : List String
  synth : Option SynthOut
  finalState : OState
deriving DecidableEq

/-- Phases 2-4 of `analyze_research_gaps` after a successful seeding:
parameter resolution, expansion, the pre-phase-3 timeout check (which
skips validation via the enrich-without-removal branch when expired),
validation, synthesis. -/
def runPhases (o : Oracles) (req : Request) (dl start : ℤ) (st1 : OState) : RunResult :=
  let ps := resolveParams req.analysis_mode req.max_papers req.validation_threshold
  let st2 := phase2ExpandingFrontier o ps.1 req.analysis_mode (some dl) st1
  let t := o.clock st2.tick
  let st2 := { st2 with tick := st2.tick + 1 }
  let vt := if dl ≤ t then 0 else ps.2
  let st3 :=
    if 0 < vt then phase3FinalValidation o vt (some dl) st2
    else timeoutSkipEnrich o st2
  let nowT := o.clock st3.tick
  let st4 := { st3 with tick := st3.tick + 1 }
  let syn := phase4Synthesis st4 start nowT
  { ok := true, validated_gaps := syn.validated_gaps,
    gaps_discovered := syn.gaps_discovered, gaps_validated := syn.gaps_validated,
    gaps_eliminated := syn.gaps_eliminated,
    total_papers_analyzed := syn.total_papers_analyzed,
    frontier_overview := syn.frontier_overview,
    key_insights := [], synth := some syn, finalState := st4 }

/-- Model of `analyze_research_gaps`: fresh state, deadline from the
mode (60 s light / 900 s deep), seeding (fatal on failure: the complete
error response with zeroed counters), then phases 2-4. -/
def analyzeResearchGaps (o : Oracles) (req : Request) : RunResult :=
  let st := initState
  let start := o.clock st.tick
  let st := { st with tick := st.tick + 1 }
  let dl : ℤ := start + (if req.analysis_mode = .light then 60 else 900)
  match phase1Seeding o req.url st with
  | (none, st1) =>
    { ok := false, validated_gaps := [], gaps_discovered := 0, gaps_validated := 0,
      gaps_eliminated := 0, total_papers_analyzed := st1.analyzed_papers.length,
      frontier_overview := "Analysis failed during processing",
      key_insights := ["Error occurred during analysis"],
      synth := none, finalState := st1 }
  | (some _, st1) => runPhases o req dl start st1

/-! ### Concrete runs used to settle the claims on explicit inputs -/

/-- A seed paper with one meaningful limitation (21 characters). -/
def seedOneGap : PaperAnalysis :=
  { url := "s", title := "T",
    limitations := ["abcdefghijklmnopqrstu"], future_work := [], key_findings := [] }

/-- A seed paper with two meaningful limitations. -/
def seedTwoGaps : PaperAnalysis :=
  { url := "s", title := "T",
    limitations := ["abcdefghijklmnopqrstu", "vwxyzabcdefghijklmnop"],
    future_work := [], key_findings := [] }

def emptyOracles : Oracles :=
  { analyze := fun _ => none, genQueries := fun _ => none,
    searchPapers := fun _ _ => [], searchValidation := fun _ => [],
    genRelated := fun _ => none, validate := fun _ _ => none,
    enrich := fun _ => none, clock := fun _ => 0 }

/-- Oracle for the C1 run: seed analysis succeeds, the clock is past the
deadline from the second reading on, every other collaborator fails. -/
def c1Oracle : Oracles :=
  { emptyOracles with
    analyze := fun r => if r = "s" then some seedOneGap else none,
    clock := fun t => if t = 0 then 0 else 1000 }

def c1Req : Request :=
  { url := "s", analysis_mode := .light, max_papers := 1, validation_threshold := 2 }

/-- C1 — the partition invariant fails on the timeout-skip branch: in
this light-mode run the deadline has expired at the pre-phase-3 check,
so the skip branch enriches the pending gap into the final list without
removing it from `potential_gaps_db`; the run ends with gap id 0 present
in both the pending store and the final validated list, although the
claim says a gap id is never in both. -/
theorem run_timeoutSkip_partition_violation :
    ((analyzeResearchGaps c1Oracle c1Req).finalState.potential_gaps_db.map RGap.gap_id = [0])
    ∧ ((analyzeResearchGaps c1Oracle c1Req).finalState.final_gaps_list.map VGap.gap_id = [0]) := by
  constructor <;> rfl

/-- Oracle for the C2 run: the validation search always proposes the
same document ref "u", whose analysis returns no result; the clock never
reaches the deadline. -/
def c2Oracle : Oracles :=
  { emptyOracles with
    analyze := fun r => if r = "s" then some seedTwoGaps else none,
    searchValidation := fun _ => ["u"] }

def c2Req : Request :=
  { url := "s", analysis_mode := .light, max_papers := 1, validation_threshold := 2 }

/-- C2 counterexample — a document ref whose analysis returns no result
is passed to the Document Analyzer once per validated gap: in this run
the ref "u" is analyzed twice (the full analyze-call trace is
["s", "u", "u"]), contradicting "at most once ... regardless of whether
earlier analysis attempts on it succeeded or returned no result". -/
theorem analyze_called_twice_on_failed_ref :
    (analyzeResearchGaps c2Oracle c2Req).finalState.analyzeTrace = ["s", "u", "u"] := by
  rfl

/-- A final state holding one analyzed paper (identical counters and
final gap list are fed to synthesis at two different clock readings). -/
def c4State : OState := { initState with analyzed_papers := [seedOneGap] }

theorem ratFloor_eq_intFloor (q : ℚ) : Rat.floor q = ⌊q⌋ :=
  (Rat.floor_def' q).trans Rat.floor_def.symm

theorem pyRoundInt_intCast (n : ℤ) : pyRoundInt ((n : ℤ) : ℚ) = n := by
  unfold pyRoundInt
  rw [ratFloor_eq_intFloor]
  norm_num

/-- C4 counterexample — synthesis reads the clock: with the same final
counters and the same (empty) final gap list, a processing time of 60 s
yields research_velocity 1.0 while 120 s yields 0.5, so the analytics
output is not a function of counters and gap list alone. -/
theorem synthesis_depends_on_clock :
    (phase4Synthesis c4State 0 60).research_velocity
      ≠ (phase4Synthesis c4State 0 120).research_velocity := by
  have hlen : c4State.analyzed_papers.length = 1 := rfl
  have h1 : (phase4Synthesis c4State 0 60).research_velocity = researchVelocity 1 60 := by
    simp [phase4Synthesis, hlen]
  have h2 : (phase4Synthesis c4State 0 120).research_velocity = researchVelocity 1 120 := by
    simp [phase4Synthesis, hlen]
  have e1 : researchVelocity 1 60 = 1 := by
    unfold researchVelocity pyRound
    rw [show ((1 : ℕ) : ℚ) / ((60 : ℚ) / 60) * 10 ^ 2 = ((100 : ℤ) : ℚ) by norm_num,
      pyRoundInt_intCast]
    norm_num
  have e2 : researchVelocity 1 120 = 1 / 2 := by
    unfold researchVelocity pyRound
    rw [show ((1 : ℕ) : ℚ) / ((120 : ℚ) / 60) * 10 ^ 2 = ((50 : ℤ) : ℚ) by norm_num,
      pyRoundInt_intCast]
    norm_num
  rw [h1, h2, e1, e2]
  norm_num

/-- C5 counterexample — two of the analytics values grow without bound:
`llm_tokens_processed` and the `patent_landscape` value of a category
exceed every candidate bound as their inputs grow, so not every numeric
analytics value saturates at a fixed bound. -/
theorem synthesis_outputs_unbounded :
    (¬ ∃ B : ℕ, ∀ p g : ℕ, llmTokensProcessed p g ≤ B)
    ∧ (¬ ∃ B : ℕ, ∀ n : ℕ, patentLandscapeVal "AI" n ≤ B) := by
  constructor
  · rintro ⟨B, h⟩
    have hb := h (B + 1) 0
    unfold llmTokensProcessed at hb
    omega
  · rintro ⟨B, h⟩
    have hb := h (B + 1)
    unfold patentLandscapeVal at hb
    have hl : ("AI".length : ℕ) = 2 := rfl
    rw [hl] at hb
    omega

/-- The single pending gap of the C6 run. -/
def c6Gap : RGap :=
  { gap_id := 0, description := "d", source_paper := "s", source_paper_title := "T",
    category := "Limitation", validation_strikes := 0 }

/-- Entry state of the C6 expansion: seed analyzed, one gap queued. -/
def c6State : OState :=
  { initState with
    analyzed_papers := [seedOneGap], analyzed_papers_set := ["s"],
    gap_search_queue := [c6Gap], potential_gaps_db := [c6Gap] }

def mkPaper (u : String) : PaperAnalysis :=
  { url := u, title := u, limitations := [], future_work := [], key_findings := [] }

/-- Oracle for the C6 run: the solution search yields three fresh
analyzable documents; the clock never reaches the deadline. -/
def c6Oracle : Oracles :=
  { emptyOracles with
    analyze := fun r => if r = "s" then some seedOneGap
      else if r = "u1" ∨ r = "u2" ∨ r = "u3" then some (mkPaper r) else none,
    genQueries := fun _ => some ["q"],
    searchPapers := fun _ _ => ["u1", "u2", "u3"] }

/-- C6 counterexample — in fast (light) mode the expansion phase does
not apply `max_papers = min(requested, 4)`: with requested = 4 and three
analyzable solution papers available it stops after one additional
analysis (2 papers total, "u2" never analyzed), because the source
further caps the paper budget at 2 inside the phase. -/
theorem fast_mode_caps_at_two_papers :
    ((phase2ExpandingFrontier c6Oracle 4 .light (some 1000) c6State).analyzed_papers.length = 2)
    ∧ "u2" ∉ (phase2ExpandingFrontier c6Oracle 4 .light (some 1000) c6State).analyzed_papers_set := by
  constructor
  · rfl
  · decide

/-! ### C8 — fatal seed failure -/

/-- C8 — Fatal seed failure: whenever analysis of the seed document
fails, the run takes the error path and the caller receives the
complete, well-typed error response: empty validated-gap list,
`gaps_discovered = 0`, zeroed counters, `total_papers_analyzed = 0`, and
the fixed non-empty failure narrative. -/
theorem seed_failure_error_response (o : Oracles) (req : Request)
    (h : o.analyze req.url = none) :
    (analyzeResearchGaps o req).ok = false
    ∧ (analyzeResearchGaps o req).validated_gaps = []
    ∧ (analyzeResearchGaps o req).gaps_discovered = 0
    ∧ (analyzeResearchGaps o req).gaps_validated = 0
    ∧ (analyzeResearchGaps o req).gaps_eliminated = 0
    ∧ (analyzeResearchGaps o req).total_papers_analyzed = 0
    ∧ (analyzeResearchGaps o req).frontier_overview = "Analysis failed during processing"
    ∧ (analyzeResearchGaps o req).frontier_overview ≠ "" := by
  unfold analyzeResearchGaps phase1Seeding
  simp [h, initState, traceState]

/-- Closed witness for C8: the always-failing analyzer yields the error
response with zero analyzed papers. -/
theorem seed_failure_witness :
    (analyzeResearchGaps emptyOracles c1Req).total_papers_analyzed = 0
    ∧ (analyzeResearchGaps emptyOracles c1Req).frontier_overview ≠ "" := by
  have h := seed_failure_error_response emptyOracles c1Req rfl
  exact ⟨h.2.2.2.2.2.1, h.2.2.2.2.2.2.2⟩

/-! ### Frame lemmas for the validation-loop step -/

theorem validationPapersLoop_frame (o : Oracles) (urls : List String) :
    ∀ st : OState,
      ((validationPapersLoop o urls st).2.potential_gaps_db = st.potential_gaps_db)
      ∧ ((validationPapersLoop o urls st).2.final_gaps_list = st.final_gaps_list)
      ∧ ((validationPapersLoop o urls st).2.stats = st.stats)
      ∧ ((validationPapersLoop o urls st).2.validateCalls = st.validateCalls) := by
  induction urls with
  | nil => intro st; exact ⟨rfl, rfl, rfl, rfl⟩
  | cons url rest ih =>
    intro st
    unfold validationPapersLoop
    by_cases hm : url ∈ st.analyzed_papers.map PaperAnalysis.url
    · simpa [hm] using ih st
    · cases ha : o.analyze url with
      | none => simpa [hm, ha] using ih _
      | some p => simpa [hm, ha] using ih _

theorem maxValidationPapers_db (o : Oracles) (dl : Option ℤ) (st : OState) :
    (maxValidationPapers o dl st).2.potential_gaps_db = st.potential_gaps_db := by
  cases dl <;> rfl

theorem maxValidationPapers_final (o : Oracles) (dl : Option ℤ) (st : OState) :
    (maxValidationPapers o dl st).2.final_gaps_list = st.final_gaps_list := by
  cases dl <;> rfl

theorem maxValidationPapers_stats (o : Oracles) (dl : Option ℤ) (st : OState) :
    (maxValidationPapers o dl st).2.stats = st.stats := by
  cases dl <;> rfl

theorem maxValidationPapers_vcalls (o : Oracles) (dl : Option ℤ) (st : OState) :
    (maxValidationPapers o dl st).2.validateCalls = st.validateCalls := by
  cases dl <;> rfl

theorem processGapPapers_frame (o : Oracles) (dl : Option ℤ) (gap : RGap) (st : OState) :
    ((processGapPapers o dl gap st).2.potential_gaps_db = st.potential_gaps_db)
    ∧ ((processGapPapers o dl gap st).2.final_gaps_list = st.final_gaps_list)
    ∧ ((processGapPapers o dl gap st).2.stats.gaps_eliminated = st.stats.gaps_eliminated)
    ∧ ((processGapPapers o dl gap st).2.stats.validation_attempts = st.stats.validation_attempts)
    ∧ ((processGapPapers o dl gap st).2.validateCalls = st.validateCalls) := by
  have hv := fun urls st1 => validationPapersLoop_frame o urls st1
  unfold processGapPapers
  cases hq : o.genQueries gap <;>
    refine ⟨?_, ?_, ?_, ?_, ?_⟩ <;>
    simp [(hv _ _).1, (hv _ _).2.1, (hv _ _).2.2.1, (hv _ _).2.2.2,
      maxValidationPapers_db, maxValidationPapers_final, maxValidationPapers_stats,
      maxValidationPapers_vcalls]

theorem strikeStep_attempts (o : Oracles) (thr : ℕ) (gap : RGap) (st : OState) :
    (strikeStep o thr gap st).stats.validation_attempts
      = st.stats.validation_attempts + 1 := by
  by_cases h : thr ≤ gap.validation_strikes + 1 <;> simp [strikeStep, h]

theorem strikeStep_validateCalls (o : Oracles) (thr : ℕ) (gap : RGap) (st : OState) :
    (strikeStep o thr gap st).validateCalls = st.validateCalls := by
  by_cases h : thr ≤ gap.validation_strikes + 1 <;> simp [strikeStep, h]

theorem strikeStep_below (o : Oracles) (thr : ℕ) (gap : RGap) (st : OState)
    (h : gap.validation_strikes + 1 < thr) :
    (strikeStep o thr gap st).potential_gaps_db = bumpStrikes st.potential_gaps_db gap.gap_id
    ∧ (strikeStep o thr gap st).final_gaps_list = st.final_gaps_list := by
  have h2 : ¬ thr ≤ gap.validation_strikes + 1 := by omega
  constructor <;> simp [strikeStep, h2]

theorem strikeStep_graduate (o : Oracles) (thr : ℕ) (gap : RGap) (st : OState)
    (h : thr ≤ gap.validation_strikes + 1) :
    (strikeStep o thr gap st).final_gaps_list
      = st.final_gaps_list
        ++ [enrichOrQuick o { gap with validation_strikes := gap.validation_strikes + 1 }]
    ∧ (strikeStep o thr gap st).potential_gaps_db
      = removeById (bumpStrikes st.potential_gaps_db gap.gap_id) gap.gap_id := by
  constructor <;> simp [strikeStep, h]

theorem bumpStrikes_map_ids (l : List RGap) (i : ℕ) :
    (bumpStrikes l i).map RGap.gap_id = l.map RGap.gap_id := by
  induction l with
  | nil => rfl
  | cons g rest ih =>
    unfold bumpStrikes at *
    by_cases h : g.gap_id = i <;> simp [h, ih]

theorem not_mem_removeById : ∀ (l : List RGap) (i : ℕ),
    (l.map RGap.gap_id).Nodup → i ∉ (removeById l i).map RGap.gap_id := by
  intro l i
  induction l with
  | nil => intro _; simp [removeById]
  | cons g rest ih =>
    intro hnd
    simp only [List.map_cons, List.nodup_cons] at hnd
    by_cases h : g.gap_id = i
    · simp only [removeById, if_pos h]
      exact h ▸ hnd.1
    · simp only [removeById, if_neg h, List.map_cons, List.mem_cons]
      rintro (hc | hc)
      · exact h hc.symm
      · exact ih hnd.2 hc

/-! ### C3 and C10 — validation-loop step semantics -/

/-- C3 — Validation-loop step semantics.  For a gap of the pending store
(`hmem`, with distinct ids `hnd`): if the validator judges the gap
invalidated, the gap is removed from the pending store, the eliminated
counter is incremented, its strikes are untouched (the store equals
`removeById` of the original) and nothing is added to the final list;
if the validator judges it not invalidated or the validator call fails,
strikes and the attempts counter are incremented, and the gap is
enriched (validator enrichment with deterministic fallback) and moved to
the final list exactly when the strike count meets the threshold. -/
theorem validation_step_semantics (o : Oracles) (thr : ℕ) (dl : Option ℤ)
    (gap : RGap) (st : OState)
    (hmem : gap.gap_id ∈ st.potential_gaps_db.map RGap.gap_id)
    (hnd : (st.potential_gaps_db.map RGap.gap_id).Nodup) :
    ((processGapPapers o dl gap st).1 ≠ []
      ∧ o.validate gap (processGapPapers o dl gap st).1 = some true →
      (processGap o thr dl gap st).potential_gaps_db
          = removeById st.potential_gaps_db gap.gap_id
      ∧ gap.gap_id ∉ (processGap o thr dl gap st).potential_gaps_db.map RGap.gap_id
      ∧ (processGap o thr dl gap st).stats.gaps_eliminated = st.stats.gaps_eliminated + 1
      ∧ (processGap o thr dl gap st).stats.validation_attempts = st.stats.validation_attempts
      ∧ (processGap o thr dl gap st).final_gaps_list = st.final_gaps_list)
    ∧ ((processGapPapers o dl gap st).1 ≠ []
      ∧ (o.validate gap (processGapPapers o dl gap st).1 = some false
        ∨ o.validate gap (processGapPapers o dl gap st).1 = none) →
      (processGap o thr dl gap st).stats.validation_attempts
          = st.stats.validation_attempts + 1
      ∧ (gap.validation_strikes + 1 < thr →
          (processGap o thr dl gap st).potential_gaps_db
            = bumpStrikes st.potential_gaps_db gap.gap_id
          ∧ (processGap o thr dl gap st).final_gaps_list = st.final_gaps_list)
      ∧ (thr ≤ gap.validation_strikes + 1 →
          (processGap o thr dl gap st).final_gaps_list
            = st.final_gaps_list
              ++ [enrichOrQuick o { gap with validation_strikes := gap.validation_strikes + 1 }]
          ∧ gap.gap_id ∉ (processGap o thr dl gap st).potential_gaps_db.map RGap.gap_id)) := by
  have hfr := processGapPapers_frame o dl gap st
  constructor
  · rintro ⟨hne, hval⟩
    have hemp : (processGapPapers o dl gap st).1.isEmpty = false := by
      cases hl : (processGapPapers o dl gap st).1
      · exact absurd hl hne
      · rfl
    have hmem2 : gap.gap_id ∈
        (processGapPapers o dl gap st).2.potential_gaps_db.map RGap.gap_id := by
      rw [hfr.1]; exact hmem
    have hred : processGap o thr dl gap st
        = { (processGapPapers o dl gap st).2 with
            validateCalls := (processGapPapers o dl gap st).2.validateCalls ++ [gap.gap_id],
            potential_gaps_db :=
              removeById (processGapPapers o dl gap st).2.potential_gaps_db gap.gap_id,
            stats := { (processGapPapers o dl gap st).2.stats with
              gaps_eliminated := (processGapPapers o dl gap st).2.stats.gaps_eliminated + 1 } } := by
      simp [processGap, hemp, hval, hmem2]
    refine ⟨?_, ?_, ?_, ?_, ?_⟩
    · rw [hred]; simp [hfr.1]
    · rw [hred]; simpa [hfr.1] using not_mem_removeById st.potential_gaps_db gap.gap_id hnd
    · rw [hred]; simp [hfr.2.2.1]
    · rw [hred]; simp [hfr.2.2.2.1]
    · rw [hred]; simp [hfr.2.1]
  · rintro ⟨hne, hval⟩
    have hemp : (processGapPapers o dl gap st).1.isEmpty = false := by
      cases hl : (processGapPapers o dl gap st).1
      · exact absurd hl hne
      · rfl
    have hred : processGap o thr dl gap st
        = strikeStep o thr gap
            { (processGapPapers o dl gap st).2 with
              validateCalls :=
                (processGapPapers o dl gap st).2.validateCalls ++ [gap.gap_id] } := by
      rcases hval with hval | hval <;> simp [processGap, hemp, hval]
    refine ⟨?_, ?_, ?_⟩
    · rw [hred, strikeStep_attempts]; simp [hfr.2.2.2.1]
    · intro hlt
      have hb := strikeStep_below o thr gap
        { (processGapPapers o dl gap st).2 with
          validateCalls := (processGapPapers o dl gap st).2.validateCalls ++ [gap.gap_id] } hlt
      rw [hred]
      constructor
      · rw [hb.1]; simp [hfr.1]
      · rw [hb.2]; simp [hfr.2.1]
    · intro hge
      have hg := strikeStep_graduate o thr gap
        { (processGapPapers o dl gap st).2 with
          validateCalls := (processGapPapers o dl gap st).2.validateCalls ++ [gap.gap_id] } hge
      rw [hred]
      constructor
      · rw [hg.1]; simp [hfr.2.1]
      · rw [hg.2]
        have hnd2 : ((bumpStrikes
            ({ (processGapPapers o dl gap st).2 with
              validateCalls :=
                (processGapPapers o dl gap st).2.validateCalls ++ [gap.gap_id]
              : OState }).potential_gaps_db gap.gap_id).map RGap.gap_id).Nodup := by
          rw [bumpStrikes_map_ids]
          simpa [hfr.1] using hnd
        exact not_mem_removeById _ gap.gap_id hnd2

/-- Oracle for the C3 witness: one validation paper is found and the
validator judges the gap invalidated. -/
def w3Oracle : Oracles :=
  { emptyOracles with
    searchValidation := fun _ => ["u"],
    analyze := fun r => if r = "u" then some (mkPaper "u") else none,
    validate := fun _ _ => some true }

/-- Entry state for the C3/C10 witnesses: one pending gap. -/
def w3State : OState := { initState with potential_gaps_db := [c6Gap] }

/-- Closed witness for C3: the invalidated branch eliminates the gap. -/
theorem validation_step_semantics_witness :
    (processGap w3Oracle 1 none c6Gap w3State).stats.gaps_eliminated = 1
    ∧ (processGap w3Oracle 1 none c6Gap w3State).potential_gaps_db = [] := by
  have h := validation_step_semantics w3Oracle 1 none c6Gap w3State (by decide) (by decide)
  have h1 := h.1 ⟨by decide, by decide⟩
  constructor
  · simpa [w3State, initState] using h1.2.2.1
  · simpa [w3State, initState, removeById, c6Gap] using h1.1

/-- C10 — Implicit behaviour: when the validation search yields no
analyzable documents, the validator is never consulted (the ghost log of
validator calls is unchanged), yet strikes and the attempts counter are
still incremented, and the gap still graduates to the final list when
the incremented strike count meets the threshold. -/
theorem empty_validation_strike_increment (o : Oracles) (thr : ℕ) (dl : Option ℤ)
    (gap : RGap) (st : OState)
    (h : (processGapPapers o dl gap st).1 = []) :
    (processGap o thr dl gap st).validateCalls = st.validateCalls
    ∧ (processGap o thr dl gap st).stats.validation_attempts
        = st.stats.validation_attempts + 1
    ∧ (thr ≤ gap.validation_strikes + 1 →
        (processGap o thr dl gap st).final_gaps_list
          = st.final_gaps_list
            ++ [enrichOrQuick o { gap with validation_strikes := gap.validation_strikes + 1 }])
    ∧ (gap.validation_strikes + 1 < thr →
        (processGap o thr dl gap st).potential_gaps_db
          = bumpStrikes st.potential_gaps_db gap.gap_id) := by
  have hfr := processGapPapers_frame o dl gap st
  have hemp : (processGapPapers o dl gap st).1.isEmpty = true := by simp [h]
  have hred : processGap o thr dl gap st
      = strikeStep o thr gap (processGapPapers o dl gap st).2 := by
    simp [processGap, hemp]
  refine ⟨?_, ?_, ?_, ?_⟩
  · rw [hred, strikeStep_validateCalls, hfr.2.2.2.2]
  · rw [hred, strikeStep_attempts, hfr.2.2.2.1]
  · intro hge
    rw [hred, (strikeStep_graduate o thr gap _ hge).1, hfr.2.1]
  · intro hlt
    rw [hred, (strikeStep_below o thr gap _ hlt).1, hfr.1]

/-- Closed witness for C10: with an empty validation search the gap
graduates while the validator-call log stays empty. -/
theorem empty_validation_witness :
    (processGap emptyOracles 1 none c6Gap w3State).validateCalls = []
    ∧ (processGap emptyOracles 1 none c6Gap w3State).stats.validation_attempts = 1 := by
  have h := empty_validation_strike_increment emptyOracles 1 none c6Gap w3State (by decide)
  exact ⟨by simpa [w3State, initState] using h.1,
    by simpa [w3State, initState] using h.2.1⟩

/-! ### C7 — deadline safety of the drain -/

theorem checkExpired_frame (o : Oracles) (dl : Option ℤ) (st : OState) :
    ((checkExpired o dl st).2.potential_gaps_db = st.potential_gaps_db)
    ∧ ((checkExpired o dl st).2.final_gaps_list = st.final_gaps_list)
    ∧ ((checkExpired o dl st).2.analyzeTrace = st.analyzeTrace)
    ∧ ((checkExpired o dl st).2.validateCalls = st.validateCalls) := by
  cases dl <;> exact ⟨rfl, rfl, rfl, rfl⟩

theorem enrichOrQuick_id (o : Oracles) (g : RGap)
    (henr : ∀ g v, o.enrich g = some (some v) → v.gap_id = g.gap_id) :
    (enrichOrQuick o g).gap_id = g.gap_id := by
  unfold enrichOrQuick
  cases h : o.enrich g with
  | none => rfl
  | some x =>
    cases x with
    | none => rfl
    | some v => exact henr g v h

theorem mem_removeById_or : ∀ (l : List RGap) (i j : ℕ), i ∈ l.map RGap.gap_id →
    i ∈ (removeById l j).map RGap.gap_id ∨ i = j := by
  intro l i j
  induction l with
  | nil => simp
  | cons g rest ih =>
    intro hmem
    simp only [List.map_cons, List.mem_cons] at hmem
    by_cases h : g.gap_id = j
    · simp only [removeById, if_pos h]
      rcases hmem with heq | hm
      · right; rw [heq, h]
      · left; exact hm
    · simp only [removeById, if_neg h, List.map_cons, List.mem_cons]
      rcases hmem with heq | hm
      · left; left; exact heq
      · rcases ih hm with hin | hj
        · left; right; exact hin
        · right; exact hj

theorem drainGaps_frame (o : Oracles) (thr : ℕ) : ∀ (l : List RGap) (st : OState),
    ((drainGaps o thr l st).analyzeTrace = st.analyzeTrace)
    ∧ ((drainGaps o thr l st).validateCalls = st.validateCalls)
    ∧ ((drainGaps o thr l st).analyzed_papers = st.analyzed_papers)
    ∧ ((drainGaps o thr l st).solutionCalls = st.solutionCalls)
    ∧ ((drainGaps o thr l st).relatedCalls = st.relatedCalls)
    ∧ ((drainGaps o thr l st).stats = st.stats) := by
  intro l
  induction l with
  | nil => intro st; exact ⟨rfl, rfl, rfl, rfl, rfl, rfl⟩
  | cons g rest ih =>
    intro st
    unfold drainGaps
    by_cases h : g.validation_strikes < thr
    · simp only [if_pos h]
      split <;> exact ih _
    · simp only [if_neg h]
      exact ih st

theorem drainGaps_final_mono (o : Oracles) (thr : ℕ) :
    ∀ (l : List RGap) (st : OState) (v : VGap),
      v ∈ st.final_gaps_list → v ∈ (drainGaps o thr l st).final_gaps_list := by
  intro l
  induction l with
  | nil => intro st v hv; exact hv
  | cons g rest ih =>
    intro st v hv
    unfold drainGaps
    by_cases h : g.validation_strikes < thr
    · simp only [if_pos h]
      split <;> exact ih _ v (List.mem_append_left _ hv)
    · simp only [if_neg h]
      exact ih st v hv

theorem drainGaps_eligible (o : Oracles) (thr : ℕ)
    (henr : ∀ g v, o.enrich g = some (some v) → v.gap_id = g.gap_id) :
    ∀ (l : List RGap) (st : OState) (g : RGap), g ∈ l → g.validation_strikes < thr →
      g.gap_id ∈ (drainGaps o thr l st).final_gaps_list.map VGap.gap_id := by
  intro l
  induction l with
  | nil => intro st g hg; simp at hg
  | cons g0 rest ih =>
    intro st g hg hlt
    rcases List.mem_cons.mp hg with rfl | hmem
    · unfold drainGaps
      simp only [if_pos hlt]
      have hv : enrichOrQuick o g ∈ st.final_gaps_list ++ [enrichOrQuick o g] := by simp
      split <;>
        exact List.mem_map.mpr
          ⟨enrichOrQuick o g, drainGaps_final_mono o thr rest _ _ hv,
            enrichOrQuick_id o g henr⟩
    · unfold drainGaps
      by_cases h0 : g0.validation_strikes < thr
      · simp only [if_pos h0]
        exact ih _ g hmem hlt
      · simp only [if_neg h0]
        exact ih _ g hmem hlt

theorem drainGaps_ids (o : Oracles) (thr : ℕ)
    (henr : ∀ g v, o.enrich g = some (some v) → v.gap_id = g.gap_id) :
    ∀ (l : List RGap) (st : OState) (i : ℕ), i ∈ st.potential_gaps_db.map RGap.gap_id →
      i ∈ (drainGaps o thr l st).potential_gaps_db.map RGap.gap_id
      ∨ i ∈ (drainGaps o thr l st).final_gaps_list.map VGap.gap_id := by
  intro l
  induction l with
  | nil => intro st i hi; left; exact hi
  | cons g rest ih =>
    intro st i hi
    unfold drainGaps
    by_cases h : g.validation_strikes < thr
    · simp only [if_pos h]
      split
      · rcases mem_removeById_or st.potential_gaps_db i g.gap_id hi with hin | rfl
        · exact ih _ i hin
        · right
          have hv : enrichOrQuick o g ∈ st.final_gaps_list ++ [enrichOrQuick o g] := by simp
          exact List.mem_map.mpr
            ⟨enrichOrQuick o g, drainGaps_final_mono o thr rest _ _ hv,
              enrichOrQuick_id o g henr⟩
      · exact ih _ i hi
    · simp only [if_neg h]
      exact ih st i hi

/-- C7 — Deadline safety of the drain: when the deadline check at the
head of a validation iteration reports expiry, the loop drains — every
remaining gap whose strike count is below the threshold ends with its id
in the final validated list, every id of the pending store ends either
still pending or in the final list (no gap is lost), and no further
analysis or validation calls are issued (the ghost call logs are
unchanged). -/
theorem deadline_drain_safety (o : Oracles) (thr : ℕ) (dl : Option ℤ)
    (gap : RGap) (rest : List RGap) (st : OState)
    (hexp : (checkExpired o dl st).1 = true)
    (henr : ∀ g v, o.enrich g = some (some v) → v.gap_id = g.gap_id) :
    phase3Loop o thr dl (gap :: rest) st
      = drainGaps o thr (gap :: rest) (checkExpired o dl st).2
    ∧ (∀ g ∈ gap :: rest, g.validation_strikes < thr →
        g.gap_id ∈ (phase3Loop o thr dl (gap :: rest) st).final_gaps_list.map VGap.gap_id)
    ∧ (∀ i ∈ st.potential_gaps_db.map RGap.gap_id,
        i ∈ (phase3Loop o thr dl (gap :: rest) st).potential_gaps_db.map RGap.gap_id
        ∨ i ∈ (phase3Loop o thr dl (gap :: rest) st).final_gaps_list.map VGap.gap_id)
    ∧ (phase3Loop o thr dl (gap :: rest) st).analyzeTrace = st.analyzeTrace
    ∧ (phase3Loop o thr dl (gap :: rest) st).validateCalls = st.validateCalls := by
  have hc := checkExpired_frame o dl st
  have hred : phase3Loop o thr dl (gap :: rest) st
      = drainGaps o thr (gap :: rest) (checkExpired o dl st).2 := by
    unfold phase3Loop
    simp [hexp]
  have hfr := drainGaps_frame o thr (gap :: rest) (checkExpired o dl st).2
  refine ⟨hred, ?_, ?_, ?_, ?_⟩
  · intro g hg hlt
    rw [hred]
    exact drainGaps_eligible o thr henr (gap :: rest) _ g hg hlt
  · intro i hi
    rw [hred]
    exact drainGaps_ids o thr henr (gap :: rest) _ i (by rw [hc.1]; exact hi)
  · rw [hred, hfr.1, hc.2.2.1]
  · rw [hred, hfr.2.1, hc.2.2.2]

/-- Oracle for the C7 witness: the clock is already past the deadline. -/
def w7Oracle : Oracles := { emptyOracles with clock := fun _ => 100 }

/-- Closed witness for C7: on expiry the pending gap is drained into the
final list and no analysis or validation calls are made. -/
theorem deadline_drain_safety_witness :
    0 ∈ (phase3Loop w7Oracle 1 (some 0) [c6Gap] w3State).final_gaps_list.map VGap.gap_id
    ∧ (phase3Loop w7Oracle 1 (some 0) [c6Gap] w3State).analyzeTrace = [] := by
  have h := deadline_drain_safety w7Oracle 1 (some 0) c6Gap [] w3State (by decide)
    (fun g v hh => by simp [w7Oracle, emptyOracles] at hh)
  constructor
  · exact h.2.1 c6Gap (by simp) (by decide)
  · simpa [w3State, initState] using h.2.2.2.1

/-! ### C6 — fast-mode parameters -/

theorem checkExpired_state (o : Oracles) (dl : Option ℤ) (st : OState) :
    ((checkExpired o dl st).2.potential_gaps_db = st.potential_gaps_db)
    ∧ ((checkExpired o dl st).2.analyzed_papers = st.analyzed_papers)
    ∧ ((checkExpired o dl st).2.analyzed_papers_set = st.analyzed_papers_set)
    ∧ ((checkExpired o dl st).2.stats = st.stats)
    ∧ ((checkExpired o dl st).2.relatedCalls = st.relatedCalls)
    ∧ ((checkExpired o dl st).2.solutionCalls = st.solutionCalls)
    ∧ ((checkExpired o dl st).2.gap_search_queue = st.gap_search_queue)
    ∧ ((checkExpired o dl st).2.analyzeTrace = st.analyzeTrace) := by
  cases dl <;> exact ⟨rfl, rfl, rfl, rfl, rfl, rfl, rfl, rfl⟩

theorem searchForGapSolutions_state (o : Oracles) (st : OState) (gap : RGap) (limit : ℕ) :
    ((searchForGapSolutions o st gap limit).2.potential_gaps_db = st.potential_gaps_db)
    ∧ ((searchForGapSolutions o st gap limit).2.analyzed_papers = st.analyzed_papers)
    ∧ ((searchForGapSolutions o st gap limit).2.stats.gaps_discovered
        = st.stats.gaps_discovered)
    ∧ ((searchForGapSolutions o st gap limit).2.relatedCalls = st.relatedCalls)
    ∧ ((searchForGapSolutions o st gap limit).2.solutionCalls
        = st.solutionCalls ++ [(gap.gap_id, limit)])
    ∧ ((searchForGapSolutions o st gap limit).2.gap_search_queue = st.gap_search_queue) := by
  unfold searchForGapSolutions
  cases o.genQueries gap <;> exact ⟨rfl, rfl, rfl, rfl, rfl, rfl⟩

theorem traceState_fields (st : OState) (u : String) :
    ((traceState st u).potential_gaps_db = st.potential_gaps_db)
    ∧ ((traceState st u).analyzed_papers = st.analyzed_papers)
    ∧ ((traceState st u).analyzed_papers_set = st.analyzed_papers_set)
    ∧ ((traceState st u).stats = st.stats)
    ∧ ((traceState st u).relatedCalls = st.relatedCalls)
    ∧ ((traceState st u).solutionCalls = st.solutionCalls)
    ∧ ((traceState st u).gap_search_queue = st.gap_search_queue) :=
  ⟨rfl, rfl, rfl, rfl, rfl, rfl, rfl⟩

theorem recordAnalyzed2_fields (st : OState) (u : String) (p : PaperAnalysis) :
    ((recordAnalyzed2 st u p).potential_gaps_db = st.potential_gaps_db)
    ∧ ((recordAnalyzed2 st u p).analyzed_papers = st.analyzed_papers ++ [p])
    ∧ ((recordAnalyzed2 st u p).stats = st.stats)
    ∧ ((recordAnalyzed2 st u p).relatedCalls = st.relatedCalls)
    ∧ ((recordAnalyzed2 st u p).solutionCalls = st.solutionCalls)
    ∧ ((recordAnalyzed2 st u p).gap_search_queue = st.gap_search_queue) :=
  ⟨rfl, rfl, rfl, rfl, rfl, rfl⟩

theorem frontierStep_fields (st : OState) (g : RGap) :
    ((frontierStep st g).potential_gaps_db = st.potential_gaps_db)
    ∧ ((frontierStep st g).analyzed_papers = st.analyzed_papers)
    ∧ ((frontierStep st g).stats.gaps_discovered = st.stats.gaps_discovered)
    ∧ ((frontierStep st g).relatedCalls = st.relatedCalls)
    ∧ ((frontierStep st g).solutionCalls = st.solutionCalls) :=
  ⟨rfl, rfl, rfl, rfl, rfl⟩

theorem setQueue_fields (st : OState) (q : List RGap) :
    ((setQueue st q).potential_gaps_db = st.potential_gaps_db)
    ∧ ((setQueue st q).analyzed_papers = st.analyzed_papers)
    ∧ ((setQueue st q).stats = st.stats)
    ∧ ((setQueue st q).relatedCalls = st.relatedCalls)
    ∧ ((setQueue st q).solutionCalls = st.solutionCalls) :=
  ⟨rfl, rfl, rfl, rfl, rfl⟩

theorem phase2PaperLoop_light (o : Oracles) (mpN : ℕ) (dl : Option ℤ) :
    ∀ (urls : List String) (pa : ℕ) (st : OState),
      ((phase2PaperLoop o .light mpN dl urls pa st).2.potential_gaps_db
          = st.potential_gaps_db)
      ∧ ((phase2PaperLoop o .light mpN dl urls pa st).2.stats.gaps_discovered
          = st.stats.gaps_discovered)
      ∧ ((phase2PaperLoop o .light mpN dl urls pa st).2.relatedCalls = st.relatedCalls)
      ∧ ((phase2PaperLoop o .light mpN dl urls pa st).2.solutionCalls = st.solutionCalls)
      ∧ ((phase2PaperLoop o .light mpN dl urls pa st).2.analyzed_papers.length + pa
          = st.analyzed_papers.length + (phase2PaperLoop o .light mpN dl urls pa st).1)
      ∧ pa ≤ (phase2PaperLoop o .light mpN dl urls pa st).1
      ∧ (phase2PaperLoop o .light mpN dl urls pa st).1 ≤ max pa mpN := by
  intro urls
  induction urls with
  | nil =>
    intro pa st
    exact ⟨rfl, rfl, rfl, rfl, rfl, Nat.le_refl pa, Nat.le_max_left pa mpN⟩
  | cons url rest ih =>
    intro pa st
    have hc := checkExpired_state o dl st
    unfold phase2PaperLoop
    by_cases hex : (checkExpired o dl st).1 = true
    · rw [if_pos hex]
      exact ⟨hc.1, by rw [hc.2.2.2.1], hc.2.2.2.2.1, hc.2.2.2.2.2.1,
        by rw [hc.2.1], Nat.le_refl pa, Nat.le_max_left pa mpN⟩
    · rw [if_neg hex]
      by_cases hg : url ∉ (checkExpired o dl st).2.analyzed_papers_set ∧ pa < mpN
      · rw [if_pos hg]
        cases ha : o.analyze url with
        | none =>
          simp only [ha]
          have h := ih pa (traceState (checkExpired o dl st).2 url)
          have ht := traceState_fields (checkExpired o dl st).2 url
          simp only [ht.1, ht.2.1, ht.2.2.2.1, ht.2.2.2.2.1, ht.2.2.2.2.2.1] at h
          simp only [hc.1, hc.2.1, hc.2.2.2.1, hc.2.2.2.2.1, hc.2.2.2.2.2.1] at h
          exact h
        | some p =>
          simp only [ha]
          have h := ih (pa + 1)
            (recordAnalyzed2 (traceState (checkExpired o dl st).2 url) url p)
          have hr := recordAnalyzed2_fields (traceState (checkExpired o dl st).2 url) url p
          have ht := traceState_fields (checkExpired o dl st).2 url
          simp only [hr.1, hr.2.1, hr.2.2.1, hr.2.2.2.1, hr.2.2.2.2.1] at h
          simp only [ht.1, ht.2.1, ht.2.2.2.1, ht.2.2.2.2.1, ht.2.2.2.2.2.1] at h
          simp only [hc.1, hc.2.1, hc.2.2.2.1, hc.2.2.2.2.1, hc.2.2.2.2.2.1] at h
          refine ⟨h.1, h.2.1, h.2.2.1, h.2.2.2.1, ?_, ?_, ?_⟩
          · have h5 := h.2.2.2.2.1
            simp only [List.length_append, List.length_cons, List.length_nil] at h5
            omega
          · have h6 := h.2.2.2.2.2.1
            omega
          · have h7 := h.2.2.2.2.2.2
            have hpa : pa < mpN := hg.2
            omega
      · rw [if_neg hg]
        have h := ih pa (checkExpired o dl st).2
        simp only [hc.1, hc.2.1, hc.2.2.2.1, hc.2.2.2.2.1, hc.2.2.2.2.2.1] at h
        exact h

theorem phase2GapLoop_light (o : Oracles) (mpN : ℕ) (dl : Option ℤ) :
    ∀ (b pa : ℕ) (st : OState),
      ((phase2GapLoop o .light mpN dl b pa st).potential_gaps_db = st.potential_gaps_db)
      ∧ ((phase2GapLoop o .light mpN dl b pa st).stats.gaps_discovered
          = st.stats.gaps_discovered)
      ∧ ((phase2GapLoop o .light mpN dl b pa st).relatedCalls = st.relatedCalls)
      ∧ (∀ c ∈ (phase2GapLoop o .light mpN dl b pa st).solutionCalls,
          c ∈ st.solutionCalls ∨ c.2 = 1)
      ∧ ((phase2GapLoop o .light mpN dl b pa st).analyzed_papers.length + pa
          ≤ st.analyzed_papers.length + max pa mpN) := by
  intro b
  induction b with
  | zero =>
    intro pa st
    refine ⟨rfl, rfl, rfl, fun c hcm => Or.inl hcm, ?_⟩
    show st.analyzed_papers.length + pa ≤ st.analyzed_papers.length + max pa mpN
    have := Nat.le_max_left pa mpN
    omega
  | succ b ih =>
    intro pa st
    cases hq : st.gap_search_queue with
    | nil =>
      simp only [phase2GapLoop, hq]
      refine ⟨?_, ?_, ?_, ?_, ?_⟩
      · trivial
      · trivial
      · trivial
      · exact fun c hcm => Or.inl hcm
      · have := Nat.le_max_left pa mpN
        omega
    | cons gap restQ =>
      simp only [phase2GapLoop, hq]
      by_cases hpa : ¬ pa < mpN
      · rw [if_pos hpa]
        exact ⟨rfl, rfl, rfl, fun c hcm => Or.inl hcm, by
          have := Nat.le_max_left pa mpN; omega⟩
      · rw [if_neg hpa]
        by_cases hex : (checkExpired o dl st).1 = true
        · have hc := checkExpired_state o dl st
          rw [if_pos hex]
          exact ⟨hc.1, by rw [hc.2.2.2.1], hc.2.2.2.2.1,
            fun c hcm => Or.inl (hc.2.2.2.2.2.1 ▸ hcm), by
              rw [hc.2.1]; have := Nat.le_max_left pa mpN; omega⟩
        · rw [if_neg hex]
          have hc := checkExpired_state o dl st
          have hqf := setQueue_fields (checkExpired o dl st).2 restQ
          have hs := searchForGapSolutions_state o
            (setQueue (checkExpired o dl st).2 restQ) gap 1
          have hp := phase2PaperLoop_light o mpN dl
            (searchForGapSolutions o (setQueue (checkExpired o dl st).2 restQ) gap 1).1
            pa
            (searchForGapSolutions o (setQueue (checkExpired o dl st).2 restQ) gap 1).2
          have hih := ih
            (phase2PaperLoop o .light mpN dl
              (searchForGapSolutions o (setQueue (checkExpired o dl st).2 restQ) gap 1).1
              pa
              (searchForGapSolutions o (setQueue (checkExpired o dl st).2 restQ) gap 1).2).1
            (frontierStep
              (phase2PaperLoop o .light mpN dl
                (searchForGapSolutions o (setQueue (checkExpired o dl st).2 restQ) gap 1).1
                pa
                (searchForGapSolutions o (setQueue (checkExpired o dl st).2 restQ) gap 1).2).2
              gap)
          have hf := frontierStep_fields
            (phase2PaperLoop o .light mpN dl
              (searchForGapSolutions o (setQueue (checkExpired o dl st).2 restQ) gap 1).1
              pa
              (searchForGapSolutions o (setQueue (checkExpired o dl st).2 restQ) gap 1).2).2
            gap
          simp only [hf.1, hf.2.1, hf.2.2.1, hf.2.2.2.1, hf.2.2.2.2] at hih
          simp only [hp.1, hp.2.1, hp.2.2.1, hp.2.2.2.1] at hih
          simp only [hs.1, hs.2.1, hs.2.2.1, hs.2.2.2.1, hs.2.2.2.2.1] at hih
          simp only [hqf.1, hqf.2.1, hqf.2.2.1, hqf.2.2.2.1, hqf.2.2.2.2] at hih
          simp only [hc.1, hc.2.1, hc.2.2.2.1, hc.2.2.2.2.1, hc.2.2.2.2.2.1] at hih
          refine ⟨hih.1, hih.2.1, hih.2.2.1, ?_, ?_⟩
          · intro c hcm
            rcases hih.2.2.2.1 c hcm with hin | h1
            · rcases List.mem_append.mp hin with hin2 | hone
              · exact Or.inl hin2
              · right
                have : c = (gap.gap_id, 1) := by simpa using hone
                rw [this]
            · exact Or.inr h1
          · have hlen := hih.2.2.2.2
            have hplen := hp.2.2.2.2.1
            have hple := hp.2.2.2.2.2.2
            have hpge := hp.2.2.2.2.2.1
            have hq1 : (searchForGapSolutions o
                (setQueue (checkExpired o dl st).2 restQ) gap 1).2.analyzed_papers.length
                = st.analyzed_papers.length := by
              rw [hs.2.1, hqf.2.1, hc.2.1]
            rw [hq1] at hplen
            have hpa2 : pa < mpN := by omega
            omega

/-- C6 — Fast-mode parameter table, as the code applies it: the driver
resolves `max_papers = min(requested, 4)` and threshold 1, but inside
the expansion phase light mode further caps the paper budget at
`min(max_papers, 2)` and the gap iterations at 2; the phase performs no
related-area (expansion) search, extracts no new gaps, calls the
per-gap solution search only with limit 1, and the gap loop runs only
while the queue is non-empty, the analyzed-paper count is below the
(further capped) paper budget, and the iteration allowance is positive. -/
theorem fast_mode_parameters_amended (o : Oracles) (r t mp : ℕ) (dl : Option ℤ)
    (st : OState) :
    resolveParams .light r t = (min r 4, 1)
    ∧ (phase2ExpandingFrontier o mp .light dl st).relatedCalls = st.relatedCalls
    ∧ (phase2ExpandingFrontier o mp .light dl st).potential_gaps_db = st.potential_gaps_db
    ∧ (phase2ExpandingFrontier o mp .light dl st).stats.gaps_discovered
        = st.stats.gaps_discovered
    ∧ (∀ c ∈ (phase2ExpandingFrontier o mp .light dl st).solutionCalls,
        c ∈ st.solutionCalls ∨ c.2 = 1)
    ∧ (1 ≤ mp →
        (phase2ExpandingFrontier o mp .light dl st).analyzed_papers.length + 1
          ≤ st.analyzed_papers.length + min mp 2)
    ∧ (∀ (pa : ℕ) (s2 : OState), phase2GapLoop o .light (min mp 2) dl 0 pa s2 = s2)
    ∧ (∀ (b pa : ℕ) (s2 : OState), s2.gap_search_queue = [] →
        phase2GapLoop o .light (min mp 2) dl (b + 1) pa s2 = s2)
    ∧ (∀ (b pa : ℕ) (s2 : OState), min mp 2 ≤ pa →
        phase2GapLoop o .light (min mp 2) dl (b + 1) pa s2 = s2) := by
  have hg := phase2GapLoop_light o (min mp 2) dl 2 1
    { st with gap_search_queue := st.gap_search_queue.take 2 }
  refine ⟨rfl, ?_, ?_, ?_, ?_, ?_, ?_, ?_, ?_⟩
  · exact hg.2.2.1
  · exact hg.1
  · exact hg.2.1
  · exact hg.2.2.2.1
  · intro hmp
    have hlen := hg.2.2.2.2
    have hb : ({ st with gap_search_queue := st.gap_search_queue.take 2 }
        : OState).analyzed_papers = st.analyzed_papers := rfl
    rw [hb] at hlen
    show (phase2GapLoop o .light (min mp 2) dl 2 1
        { st with gap_search_queue := st.gap_search_queue.take 2 }).analyzed_papers.length + 1
      ≤ st.analyzed_papers.length + min mp 2
    omega
  · intro pa s2; rfl
  · intro b pa s2 hq
    simp only [phase2GapLoop, hq]
  · intro b pa s2 hpa
    cases hq : s2.gap_search_queue with
    | nil => simp only [phase2GapLoop, hq]
    | cons g rq =>
      simp only [phase2GapLoop, hq]
      have hnp : ¬ pa < min mp 2 := by omega
      rw [if_pos hnp]

/-! ### C5 — bounds of the synthesis formulas, C4 — determinism -/

theorem pyRoundInt_le (q : ℚ) (n : ℤ) (h : q ≤ (n : ℚ)) : pyRoundInt q ≤ n := by
  simp only [pyRoundInt, ratFloor_eq_intFloor]
  have hfq : (⌊q⌋ : ℚ) ≤ q := Int.floor_le q
  have hfn : ⌊q⌋ ≤ n := by
    have h2 : ⌊q⌋ ≤ ⌊(n : ℚ)⌋ := Int.floor_mono h
    rwa [Int.floor_intCast] at h2
  split_ifs with h1 h2 h3
  · exact hfn
  · have hlt : (⌊q⌋ : ℚ) < (n : ℚ) := by linarith
    have : ⌊q⌋ < n := by exact_mod_cast hlt
    omega
  · exact hfn
  · have hge : (1 : ℚ) / 2 ≤ q - ⌊q⌋ := le_of_not_lt h1
    have hlt : (⌊q⌋ : ℚ) < (n : ℚ) := by linarith
    have : ⌊q⌋ < n := by exact_mod_cast hlt
    omega

theorem frontierCoverage_le (p : ℕ) : frontierCoverage p ≤ 85 := by
  unfold frontierCoverage pyRound
  have hmin := min_le_left (85 : ℚ) (20 + (p : ℚ) * 8)
  have harg : (min 85 (20 + (p : ℚ) * 8)) * 10 ^ 1 ≤ ((850 : ℤ) : ℚ) := by
    push_cast
    linarith
  have h2 := pyRoundInt_le _ 850 harg
  have h3 : ((pyRoundInt ((min 85 (20 + (p : ℚ) * 8)) * 10 ^ 1) : ℤ) : ℚ) ≤ 850 := by
    exact_mod_cast h2
  rw [div_le_iff₀ (by norm_num : (0 : ℚ) < 10 ^ 1)]
  linarith

/-- C5 — Amended numerical bounds: the capped analytics saturate at
their fixed bounds (breakthrough_potential_score at 10,
ai_confidence_score at 100, technology_readiness at 9,
frontier_coverage at 85), but `llm_tokens_processed` and the per-
category `patent_landscape` values exceed every candidate bound as
their inputs grow — they are not saturating. -/
theorem synthesis_bounds_amended (g p n B : ℕ) :
    breakthroughScore g ≤ 10
    ∧ aiConfidenceScore g ≤ 100
    ∧ technologyReadinessVal n ≤ 9
    ∧ frontierCoverage p ≤ 85
    ∧ B < llmTokensProcessed (B + 1) 0
    ∧ B < patentLandscapeVal "AI" (B + 1) := by
  refine ⟨min_le_left _ _, min_le_left _ _, min_le_left _ _, frontierCoverage_le p, ?_, ?_⟩
  · unfold llmTokensProcessed
    omega
  · unfold patentLandscapeVal
    have hl : ("AI".length) = 2 := rfl
    rw [hl]
    omega

/-- C4 — Amended determinism of synthesis: the synthesis phase touches
no collaborator but reads the clock once; its output is a pure function
of the final gap list, the counters, the number of analyzed papers, the
number of explored research areas, and the two clock readings.  Two
final states agreeing on those produce identical analytics. -/
theorem synthesis_deterministic_given_time (s1 s2 : OState) (start now : ℤ)
    (h1 : s1.final_gaps_list = s2.final_gaps_list)
    (h2 : s1.stats = s2.stats)
    (h3 : s1.analyzed_papers.length = s2.analyzed_papers.length)
    (h4 : s1.research_frontier.length = s2.research_frontier.length) :
    phase4Synthesis s1 start now = phase4Synthesis s2 start now := by
  unfold phase4Synthesis
  rw [h1, h2, h3, h4]

/-- A state that differs from the fresh state only in the gap queue. -/
def w4a : OState := { initState with gap_search_queue := [c6Gap] }

/-- Closed witness for C4: states differing only in fields synthesis
does not read yield identical analytics. -/
theorem synthesis_deterministic_witness :
    phase4Synthesis w4a 0 60 = phase4Synthesis initState 0 60 :=
  synthesis_deterministic_given_time w4a initState 0 60 rfl rfl rfl rfl

/-! ### C2 — uniqueness of document analysis -/

/-- The invariant of phases 1-2: every ref whose analysis succeeds
occurs at most once in the analyze-call trace, and every successfully
analyzable traced ref has been recorded both in the processed set and
among the urls of the analyzed papers. -/
def Inv2 (o : Oracles) (st : OState) : Prop :=
  (∀ r, (o.analyze r).isSome = true → st.analyzeTrace.count r ≤ 1)
  ∧ (∀ r, (o.analyze r).isSome = true → r ∈ st.analyzeTrace →
      r ∈ st.analyzed_papers_set ∧ r ∈ st.analyzed_papers.map PaperAnalysis.url)

/-- The invariant of phase 3 (which deduplicates against the urls of
successful analyses only). -/
def Inv3 (o : Oracles) (st : OState) : Prop :=
  (∀ r, (o.analyze r).isSome = true → st.analyzeTrace.count r ≤ 1)
  ∧ (∀ r, (o.analyze r).isSome = true → r ∈ st.analyzeTrace →
      r ∈ st.analyzed_papers.map PaperAnalysis.url)

theorem Inv2_of_fields (o : Oracles) (st st' : OState)
    (ht : st'.analyzeTrace = st.analyzeTrace)
    (hset : st'.analyzed_papers_set = st.analyzed_papers_set)
    (hp : st'.analyzed_papers = st.analyzed_papers)
    (h : Inv2 o st) : Inv2 o st' := by
  constructor
  · intro r hr
    rw [ht]
    exact h.1 r hr
  · intro r hr hm
    rw [hset, hp]
    exact h.2 r hr (ht ▸ hm)

theorem Inv3_of_fields (o : Oracles) (st st' : OState)
    (ht : st'.analyzeTrace = st.analyzeTrace)
    (hp : st'.analyzed_papers = st.analyzed_papers)
    (h : Inv3 o st) : Inv3 o st' := by
  constructor
  · intro r hr
    rw [ht]
    exact h.1 r hr
  · intro r hr hm
    rw [hp]
    exact h.2 r hr (ht ▸ hm)

theorem Inv3_of_Inv2 (o : Oracles) (st : OState) (h : Inv2 o st) : Inv3 o st :=
  ⟨h.1, fun r hr hm => (h.2 r hr hm).2⟩

theorem deepExtractStep_fields (st : OState) (p : PaperAnalysis) :
    ((deepExtractStep st p).analyzeTrace = st.analyzeTrace)
    ∧ ((deepExtractStep st p).analyzed_papers_set = st.analyzed_papers_set)
    ∧ ((deepExtractStep st p).analyzed_papers = st.analyzed_papers) := by
  refine ⟨?_, ?_, ?_⟩ <;> simp only [deepExtractStep] <;> split <;> rfl

theorem searchForGapSolutions_fields2 (o : Oracles) (st : OState) (gap : RGap) (limit : ℕ) :
    ((searchForGapSolutions o st gap limit).2.analyzeTrace = st.analyzeTrace)
    ∧ ((searchForGapSolutions o st gap limit).2.analyzed_papers_set
        = st.analyzed_papers_set)
    ∧ ((searchForGapSolutions o st gap limit).2.analyzed_papers = st.analyzed_papers) := by
  unfold searchForGapSolutions
  cases o.genQueries gap <;> exact ⟨rfl, rfl, rfl⟩

theorem searchForRelatedResearch_fields (o : Oracles) (st : OState) (gap : RGap) :
    ((searchForRelatedResearch o st gap).2.analyzeTrace = st.analyzeTrace)
    ∧ ((searchForRelatedResearch o st gap).2.analyzed_papers_set
        = st.analyzed_papers_set)
    ∧ ((searchForRelatedResearch o st gap).2.analyzed_papers = st.analyzed_papers) := by
  cases hrel : o.genRelated gap with
  | none => simp [searchForRelatedResearch, hrel]
  | some lines =>
    simp only [searchForRelatedResearch, hrel]
    refine ⟨?_, ?_, ?_⟩ <;> (split <;> rfl)

theorem strikeStep_fields (o : Oracles) (thr : ℕ) (gap : RGap) (st : OState) :
    ((strikeStep o thr gap st).analyzeTrace = st.analyzeTrace)
    ∧ ((strikeStep o thr gap st).analyzed_papers = st.analyzed_papers) := by
  by_cases h : thr ≤ gap.validation_strikes + 1 <;> constructor <;> simp [strikeStep, h]

theorem checkExpired_Inv2 (o : Oracles) (dl : Option ℤ) (st : OState)
    (h : Inv2 o st) : Inv2 o (checkExpired o dl st).2 := by
  cases dl with
  | none => exact h
  | some d => exact h

theorem phase2PaperLoop_inv (o : Oracles) (mode : Mode) (mpN : ℕ) (dl : Option ℤ)
    (hurl : ∀ r p, o.analyze r = some p → p.url = r) :
    ∀ (urls : List String) (pa : ℕ) (st : OState), Inv2 o st →
      Inv2 o (phase2PaperLoop o mode mpN dl urls pa st).2 := by
  intro urls
  induction urls with
  | nil => intro pa st h; exact h
  | cons url rest ih =>
    intro pa st h
    have hcinv : Inv2 o (checkExpired o dl st).2 := checkExpired_Inv2 o dl st h
    unfold phase2PaperLoop
    by_cases hex : (checkExpired o dl st).1 = true
    · rw [if_pos hex]
      exact hcinv
    · rw [if_neg hex]
      by_cases hg : url ∉ (checkExpired o dl st).2.analyzed_papers_set ∧ pa < mpN
      · rw [if_pos hg]
        cases ha : o.analyze url with
        | none =>
          simp only [ha]
          apply ih
          constructor
          · intro r hr
            show (((checkExpired o dl st).2.analyzeTrace ++ [url]).count r) ≤ 1
            rw [List.count_append]
            by_cases hru : r = url
            · subst hru
              rw [ha] at hr
              simp at hr
            · have h0 : List.count r [url] = 0 := by
                apply List.count_eq_zero_of_not_mem
                simp [hru]
              rw [h0]
              simpa using hcinv.1 r hr
          · intro r hr hm
            have hm2 : r ∈ (checkExpired o dl st).2.analyzeTrace ∨ r ∈ [url] :=
              List.mem_append.mp hm
            rcases hm2 with hold | hnew
            · exact hcinv.2 r hr hold
            · exfalso
              have hru : r = url := by simpa using hnew
              subst hru
              rw [ha] at hr
              simp at hr
        | some p =>
          simp only [ha]
          have hst2 : Inv2 o
              (recordAnalyzed2 (traceState (checkExpired o dl st).2 url) url p) := by
            constructor
            · intro r hr
              show (((checkExpired o dl st).2.analyzeTrace ++ [url]).count r) ≤ 1
              rw [List.count_append]
              by_cases hru : r = url
              · subst hru
                have hnotin : r ∉ (checkExpired o dl st).2.analyzeTrace := fun hin =>
                  hg.1 ((hcinv.2 r hr hin).1)
                rw [List.count_eq_zero_of_not_mem hnotin]
                simp
              · have h0 : List.count r [url] = 0 := by
                  apply List.count_eq_zero_of_not_mem
                  simp [hru]
                rw [h0]
                simpa using hcinv.1 r hr
            · intro r hr hm
              have hm2 : r ∈ (checkExpired o dl st).2.analyzeTrace ∨ r ∈ [url] :=
                List.mem_append.mp hm
              constructor
              · show r ∈ (checkExpired o dl st).2.analyzed_papers_set ++ [url]
                rcases hm2 with hold | hnew
                · exact List.mem_append_left _ (hcinv.2 r hr hold).1
                · have hru : r = url := by simpa using hnew
                  subst hru
                  exact List.mem_append_right _ (by simp)
              · show r ∈ ((checkExpired o dl st).2.analyzed_papers ++ [p]).map
                  PaperAnalysis.url
                rw [List.map_append]
                rcases hm2 with hold | hnew
                · exact List.mem_append_left _ (hcinv.2 r hr hold).2
                · have hru : r = url := by simpa using hnew
                  subst hru
                  apply List.mem_append_right
                  simp [hurl r p ha]
          cases mode with
          | light => exact ih _ _ hst2
          | deep =>
            apply ih
            have hd := deepExtractStep_fields
              (recordAnalyzed2 (traceState (checkExpired o dl st).2 url) url p) p
            exact Inv2_of_fields o _ _ hd.1 hd.2.1 hd.2.2 hst2
      · rw [if_neg hg]
        exact ih _ _ hcinv

theorem phase2GapLoop_inv (o : Oracles) (mode : Mode) (mpN : ℕ) (dl : Option ℤ)
    (hurl : ∀ r p, o.analyze r = some p → p.url = r) :
    ∀ (b pa : ℕ) (st : OState), Inv2 o st →
      Inv2 o (phase2GapLoop o mode mpN dl b pa st) := by
  intro b
  induction b with
  | zero => intro pa st h; exact h
  | succ b ih =>
    intro pa st h
    cases hq : st.gap_search_queue with
    | nil =>
      simp only [phase2GapLoop, hq]
      exact h
    | cons gap restQ =>
      simp only [phase2GapLoop, hq]
      by_cases hpa : ¬ pa < mpN
      · rw [if_pos hpa]
        exact h
      · rw [if_neg hpa]
        by_cases hex : (checkExpired o dl st).1 = true
        · rw [if_pos hex]
          exact checkExpired_Inv2 o dl st h
        · rw [if_neg hex]
          have hq1 : Inv2 o (setQueue (checkExpired o dl st).2 restQ) :=
            checkExpired_Inv2 o dl st h
          apply ih
          cases mode with
          | light =>
            have hs := searchForGapSolutions_fields2 o
              (setQueue (checkExpired o dl st).2 restQ) gap 1
            have hinv2 : Inv2 o (searchForGapSolutions o
                (setQueue (checkExpired o dl st).2 restQ) gap 1).2 :=
              Inv2_of_fields o _ _ hs.1 hs.2.1 hs.2.2 hq1
            exact phase2PaperLoop_inv o .light mpN dl hurl _ _ _ hinv2
          | deep =>
            have hs := searchForGapSolutions_fields2 o
              (setQueue (checkExpired o dl st).2 restQ) gap 5
            have hr := searchForRelatedResearch_fields o
              (searchForGapSolutions o (setQueue (checkExpired o dl st).2 restQ) gap 5).2
              gap
            have hinv2 : Inv2 o (searchForRelatedResearch o
                (searchForGapSolutions o
                  (setQueue (checkExpired o dl st).2 restQ) gap 5).2 gap).2 := by
              apply Inv2_of_fields o _ _ hr.1 hr.2.1 hr.2.2
              exact Inv2_of_fields o _ _ hs.1 hs.2.1 hs.2.2 hq1
            exact phase2PaperLoop_inv o .deep mpN dl hurl _ _ _ hinv2

theorem phase2ExpandingFrontier_inv (o : Oracles) (mp : ℕ) (mode : Mode)
    (dl : Option ℤ) (st : OState)
    (hurl : ∀ r p, o.analyze r = some p → p.url = r)
    (h : Inv2 o st) : Inv2 o (phase2ExpandingFrontier o mp mode dl st) := by
  cases mode with
  | light => exact phase2GapLoop_inv o .light (min mp 2) dl hurl 2 1 _ h
  | deep => exact phase2GapLoop_inv o .deep mp dl hurl mp 1 _ h

theorem validationPapersLoop_inv (o : Oracles)
    (hurl : ∀ r p, o.analyze r = some p → p.url = r) :
    ∀ (urls : List String) (st : OState), Inv3 o st →
      Inv3 o (validationPapersLoop o urls st).2 := by
  intro urls
  induction urls with
  | nil => intro st h; exact h
  | cons url rest ih =>
    intro st h
    unfold validationPapersLoop
    by_cases hm : url ∈ st.analyzed_papers.map PaperAnalysis.url
    · rw [if_pos hm]
      exact ih st h
    · rw [if_neg hm]
      cases ha : o.analyze url with
      | none =>
        simp only [ha]
        apply ih
        constructor
        · intro r hr
          show ((st.analyzeTrace ++ [url]).count r) ≤ 1
          rw [List.count_append]
          by_cases hru : r = url
          · subst hru
            rw [ha] at hr
            simp at hr
          · have h0 : List.count r [url] = 0 := by
              apply List.count_eq_zero_of_not_mem
              simp [hru]
            rw [h0]
            simpa using h.1 r hr
        · intro r hr hmem
          rcases List.mem_append.mp hmem with hold | hnew
          · exact h.2 r hr hold
          · exfalso
            have hru : r = url := by simpa using hnew
            subst hru
            rw [ha] at hr
            simp at hr
      | some p =>
        simp only [ha]
        apply ih
        constructor
        · intro r hr
          show ((st.analyzeTrace ++ [url]).count r) ≤ 1
          rw [List.count_append]
          by_cases hru : r = url
          · subst hru
            have hnotin : r ∉ st.analyzeTrace := fun hin => hm (h.2 r hr hin)
            rw [List.count_eq_zero_of_not_mem hnotin]
            simp
          · have h0 : List.count r [url] = 0 := by
              apply List.count_eq_zero_of_not_mem
              simp [hru]
            rw [h0]
            simpa using h.1 r hr
        · intro r hr hmem
          show r ∈ (st.analyzed_papers ++ [p]).map PaperAnalysis.url
          rw [List.map_append]
          rcases List.mem_append.mp hmem with hold | hnew
          · exact List.mem_append_left _ (h.2 r hr hold)
          · have hru : r = url := by simpa using hnew
            subst hru
            apply List.mem_append_right
            simp [hurl r p ha]

theorem maxValidationPapers_Inv3 (o : Oracles) (dl : Option ℤ) (st : OState)
    (h : Inv3 o st) : Inv3 o (maxValidationPapers o dl st).2 := by
  cases dl with
  | none => exact h
  | some d => exact h

theorem processGapPapers_inv (o : Oracles) (dl : Option ℤ) (gap : RGap) (st : OState)
    (hurl : ∀ r p, o.analyze r = some p → p.url = r)
    (h : Inv3 o st) : Inv3 o (processGapPapers o dl gap st).2 := by
  unfold processGapPapers
  cases hq : o.genQueries gap with
  | none =>
    simp only [hq]
    exact validationPapersLoop_inv o hurl _ _ (maxValidationPapers_Inv3 o dl st h)
  | some qs =>
    simp only [hq]
    apply validationPapersLoop_inv o hurl
    apply maxValidationPapers_Inv3
    exact Inv3_of_fields o st _ rfl rfl h

theorem processGap_inv (o : Oracles) (thr : ℕ) (dl : Option ℤ) (gap : RGap)
    (st : OState)
    (hurl : ∀ r p, o.analyze r = some p → p.url = r)
    (h : Inv3 o st) : Inv3 o (processGap o thr dl gap st) := by
  have hpp := processGapPapers_inv o dl gap st hurl h
  unfold processGap
  by_cases he : (processGapPapers o dl gap st).1.isEmpty = true
  · rw [if_pos he]
    have hsf := strikeStep_fields o thr gap (processGapPapers o dl gap st).2
    exact Inv3_of_fields o _ _ hsf.1 hsf.2 hpp
  · rw [if_neg he]
    have hvc : Inv3 o { (processGapPapers o dl gap st).2 with
        validateCalls := (processGapPapers o dl gap st).2.validateCalls ++ [gap.gap_id] } :=
      Inv3_of_fields o _ _ rfl rfl hpp
    cases hv : o.validate gap (processGapPapers o dl gap st).1 with
    | none =>
      simp only [hv]
      exact Inv3_of_fields o _ _ (strikeStep_fields o thr gap _).1
        (strikeStep_fields o thr gap _).2 hvc
    | some b =>
      cases b with
      | true =>
        simp only [hv]
        by_cases hmem : gap.gap_id ∈ ({ (processGapPapers o dl gap st).2 with
            validateCalls := (processGapPapers o dl gap st).2.validateCalls
              ++ [gap.gap_id] } : OState).potential_gaps_db.map RGap.gap_id
        · rw [if_pos hmem]
          exact Inv3_of_fields o _ _ rfl rfl hvc
        · rw [if_neg hmem]
          exact hvc
      | false =>
        simp only [hv]
        exact Inv3_of_fields o _ _ (strikeStep_fields o thr gap _).1
          (strikeStep_fields o thr gap _).2 hvc

theorem phase3Loop_inv (o : Oracles) (thr : ℕ) (dl : Option ℤ)
    (hurl : ∀ r p, o.analyze r = some p → p.url = r) :
    ∀ (l : List RGap) (st : OState), Inv3 o st →
      Inv3 o (phase3Loop o thr dl l st) := by
  intro l
  induction l with
  | nil => intro st h; exact h
  | cons gap rest ih =>
    intro st h
    unfold phase3Loop
    by_cases hex : (checkExpired o dl st).1 = true
    · rw [if_pos hex]
      have hfr := drainGaps_frame o thr (gap :: rest) (checkExpired o dl st).2
      have hc : Inv3 o (checkExpired o dl st).2 := by
        cases dl with
        | none => exact h
        | some d => exact h
      exact Inv3_of_fields o _ _ hfr.1 hfr.2.2.1 hc
    · rw [if_neg hex]
      apply ih
      apply processGap_inv o thr dl gap _ hurl
      cases dl with
      | none => exact h
      | some d => exact h

theorem runPhases_count (o : Oracles) (req : Request) (dl start : ℤ) (st1 : OState)
    (hurl : ∀ r p, o.analyze r = some p → p.url = r)
    (hinv : Inv2 o st1) (r : String) (hs : (o.analyze r).isSome = true) :
    ((runPhases o req dl start st1).finalState.analyzeTrace.count r) ≤ 1 := by
  have h2 : Inv2 o (phase2ExpandingFrontier o
      (resolveParams req.analysis_mode req.max_papers req.validation_threshold).1
      req.analysis_mode (some dl) st1) :=
    phase2ExpandingFrontier_inv o _ _ _ _ hurl hinv
  simp only [runPhases]
  by_cases hex : dl ≤ o.clock (phase2ExpandingFrontier o
      (resolveParams req.analysis_mode req.max_papers req.validation_threshold).1
      req.analysis_mode (some dl) st1).tick
  · rw [if_pos hex]
    exact h2.1 r hs
  · rw [if_neg hex]
    by_cases hps : 0 < (resolveParams req.analysis_mode req.max_papers
        req.validation_threshold).2
    · rw [if_pos hps]
      have h3 : Inv3 o (phase3FinalValidation o
          (resolveParams req.analysis_mode req.max_papers req.validation_threshold).2
          (some dl)
          { (phase2ExpandingFrontier o
              (resolveParams req.analysis_mode req.max_papers req.validation_threshold).1
              req.analysis_mode (some dl) st1) with
            tick := (phase2ExpandingFrontier o
              (resolveParams req.analysis_mode req.max_papers req.validation_threshold).1
              req.analysis_mode (some dl) st1).tick + 1 }) := by
        apply phase3Loop_inv o _ _ hurl
        exact Inv3_of_fields o _ _ rfl rfl (Inv3_of_Inv2 o _ h2)
      exact h3.1 r hs
    · rw [if_neg hps]
      exact h2.1 r hs

/-- C2 amended — Uniqueness for successful analyses: in every run, a
document ref whose analysis succeeds is passed to the Document Analyzer
at most once across seeding, expansion and validation (refs whose
analysis returns no result are not recorded and may be retried; see the
counterexample). -/
theorem analyze_at_most_once_per_successful_ref (o : Oracles) (req : Request)
    (hurl : ∀ r p, o.analyze r = some p → p.url = r)
    (r : String) (hs : (o.analyze r).isSome = true) :
    ((analyzeResearchGaps o req).finalState.analyzeTrace.count r) ≤ 1 := by
  unfold analyzeResearchGaps
  cases hseed : o.analyze req.url with
  | none =>
    simp only [phase1Seeding, hseed]
    show List.count r (([] : List String) ++ [req.url]) ≤ 1
    exact le_trans (List.count_le_length r _) (by simp)
  | some seed =>
    simp only [phase1Seeding, hseed]
    apply runPhases_count o req _ _ _ hurl ?_ r hs
    constructor
    · intro r2 hr2
      show List.count r2 (([] : List String) ++ [req.url]) ≤ 1
      exact le_trans (List.count_le_length r2 _) (by simp)
    · intro r2 hr2 hmem
      have hr2u : r2 = req.url := by
        have : r2 ∈ ([] : List String) ++ [req.url] := hmem
        simpa using this
      subst hr2u
      constructor
      · show req.url ∈ [req.url]
        simp
      · show req.url ∈ [seed].map PaperAnalysis.url
        simp [hurl req.url seed hseed]

/-- Oracle for the C2 witness: only the seed ref "s" is analyzable. -/
def w2Oracle : Oracles :=
  { emptyOracles with
    analyze := fun r => if r = "s" then some seedOneGap else none }

/-- Closed witness for the amended C2: the successfully analyzable seed
ref is traced at most once over a full run. -/
theorem analyze_at_most_once_witness :
    ((analyzeResearchGaps w2Oracle c2Req).finalState.analyzeTrace.count "s") ≤ 1 := by
  refine analyze_at_most_once_per_successful_ref w2Oracle c2Req ?_ "s" (by decide)
  intro r p h
  by_cases hr : r = "s"
  · subst hr
    have hp : p = seedOneGap := by
      simpa [w2Oracle, emptyOracles] using h.symm
    rw [hp]
    rfl
  · exfalso
    simp [w2Oracle, emptyOracles, hr] at h

end GapAnalysis
